import Mathlib

/-!
# Tagger: path classification and stencil tagging

A shallow embedding of `Unreal/CarlaUE4/Plugins/Carla/Source/Carla/Game/Tagger.cpp`.

* Engine strings (`FString`) are Lean strings: the characters held before the
  terminator. Their `operator==` is the engine's, a `Stricmp` comparison, and
  their `ParseIntoArray` is the engine's, which adds nothing for an empty string.
* Engine arrays (`TArray`) are lists, indexed by a signed integer with the
  engine's range check made explicit: an access out of range yields `none`.
* Functions that index an array therefore return an `Option`; `none` is the
  failed range check.
-/

namespace Tagger

/-! ## Labels -/

/-- Modelled from the spec: the enum `ECityObjectLabel` is declared in `Tagger.h`,
which is not among the sources. Its members are `None`, the twelve base labels
and the custom variants, as the enumerators `Tagger.cpp` names: the thirteen of
`GetTagAsString` and the ten `FreicarN` returned by `GetLabelByAssetName`. -/
inductive ECityObjectLabel where
  | None
  | Buildings
  | Fences
  | Other
  | Pedestrians
  | Poles
  | RoadLines
  | Roads
  | Sidewalks
  | TrafficSigns
  | Vegetation
  | Vehicles
  | Walls
  | Freicar1
  | Freicar2
  | Freicar3
  | Freicar4
  | Freicar5
  | Freicar6
  | Freicar7
  | Freicar8
  | Freicar9
  | Freicar10
  deriving DecidableEq, Repr, Fintype

/-! ## Engine strings and arrays -/

/-- The engine's `BothAscii` test on two code units. -/
def BothAscii (C1 C2 : Char) : Bool :=
  decide (C1.toNat < 128) && decide (C2.toNat < 128)

/-- The engine's `LowerAscii` table: an upper-case ASCII letter is sent to its
lower-case letter, every other code unit to itself. -/
def LowerAscii (C : Char) : Nat :=
  if 65 ≤ C.toNat ∧ C.toNat ≤ 90 then C.toNat + 32 else C.toNat

/-- The engine's `FPlatformString::Stricmp` on the characters of two strings.
The end of a list is the terminator, code unit 0. Identical units move on, or
end the comparison with 0 when they are the terminator; two ASCII units are
compared through `LowerAscii`; any other pair differs. -/
def Stricmp : List Char → List Char → Int
  | [], [] => 0
  | [], C2 :: _ => 0 - (LowerAscii C2 : Int)
  | C1 :: _, [] => (LowerAscii C1 : Int) - 0
  | C1 :: S1, C2 :: S2 =>
    if C1 = C2 then (if C1.toNat = 0 then 0 else Stricmp S1 S2)
    else if BothAscii C1 C2 then
      if (LowerAscii C1 : Int) - (LowerAscii C2 : Int) ≠ 0 then
        (LowerAscii C1 : Int) - (LowerAscii C2 : Int)
      else Stricmp S1 S2
    else (C1.toNat : Int) - (C2.toNat : Int)

/-- The `operator==` of `FString` against a string literal, as used in the two
ladders. The engine header `UnrealString.h` defines it as
`FPlatformString::Stricmp(*Lhs, Rhs) == 0` and notes it as case insensitive:
the comparison ignores the case of ASCII letters. -/
def FStringEq (Lhs Rhs : String) : Bool :=
  Stricmp Lhs.data Rhs.data == 0

/-- Checked `TArray::operator[]`: the element at a signed index, `none` when
the index is negative or not below `Num()`. -/
def TArrayAt {α : Type} (A : List α) (Index : Int) : Option α :=
  if 0 ≤ Index ∧ Index < (A.length : Int) then A[Index.toNat]? else none

/-- The loop of `FString::ParseIntoArray` for a one-character delimiter.
`Cur` holds, reversed, the characters read since the last delimiter. -/
def ParseLoop (Delim : Char) (InCullEmpty : Bool) : List Char → List Char → List String
  | Cur, [] =>
    if !InCullEmpty || Cur ≠ [] then [String.mk Cur.reverse] else []
  | Cur, C :: Rest =>
    if C = Delim then
      (if !InCullEmpty || Cur ≠ [] then [String.mk Cur.reverse] else [])
        ++ ParseLoop Delim InCullEmpty [] Rest
    else ParseLoop Delim InCullEmpty (C :: Cur) Rest

/-- The engine's `FString::ParseIntoArray(OutArray, Delim, InCullEmpty)` for a
one-character delimiter. The output array is reset; an empty string adds
nothing to it; otherwise the pieces between delimiters are added in order. -/
def ParseIntoArray (Path : String) (Delim : Char) (InCullEmpty : Bool) : List String :=
  if Path.data = [] then [] else ParseLoop Delim InCullEmpty [] Path.data

/-! ## The two rule ladders -/

/-- The ladder of `GetLabelByFolderName`. -/
def GetLabelByFolderName (S : String) : ECityObjectLabel :=
  if FStringEq S "Buildings" then ECityObjectLabel.Buildings
  else if FStringEq S "Fences" then ECityObjectLabel.Fences
  else if FStringEq S "Pedestrians" then ECityObjectLabel.Pedestrians
  else if FStringEq S "Pole" then ECityObjectLabel.Poles
  else if FStringEq S "Props" then ECityObjectLabel.Other
  else if FStringEq S "Road" then ECityObjectLabel.Roads
  else if FStringEq S "RoadLines" then ECityObjectLabel.RoadLines
  else if FStringEq S "SideWalk" then ECityObjectLabel.Sidewalks
  else if FStringEq S "TrafficSigns" then ECityObjectLabel.TrafficSigns
  else if FStringEq S "Vegetation" then ECityObjectLabel.Vegetation
  else if FStringEq S "Vehicles" then ECityObjectLabel.Vehicles
  else if FStringEq S "Walls" then ECityObjectLabel.Walls
  else ECityObjectLabel.None

/-- The ladder of `GetLabelByAssetName`. -/
def GetLabelByAssetName (S : String) : ECityObjectLabel :=
  if FStringEq S "big_with_cover_PhysicsAsset.big_with_cover_PhysicsAsset" then
    ECityObjectLabel.Freicar1
  else if FStringEq S "big_with_cover_PhysicsAsset.big_with_cover_PhysicsAsset_2" then
    ECityObjectLabel.Freicar2
  else if FStringEq S "big_with_cover_PhysicsAsset.big_with_cover_PhysicsAsset_3" then
    ECityObjectLabel.Freicar3
  else if FStringEq S "big_with_cover_PhysicsAsset.big_with_cover_PhysicsAsset_4" then
    ECityObjectLabel.Freicar4
  else if FStringEq S "big_with_cover_PhysicsAsset.big_with_cover_PhysicsAsset_5" then
    ECityObjectLabel.Freicar5
  else if FStringEq S "big_with_cover_PhysicsAsset.big_with_cover_PhysicsAsset_6" then
    ECityObjectLabel.Freicar6
  else if FStringEq S "big_with_cover_PhysicsAsset.big_with_cover_PhysicsAsset_7" then
    ECityObjectLabel.Freicar7
  else if FStringEq S "big_with_cover_PhysicsAsset.big_with_cover_PhysicsAsset_8" then
    ECityObjectLabel.Freicar8
  else if FStringEq S "big_with_cover_PhysicsAsset.big_with_cover_PhysicsAsset_9" then
    ECityObjectLabel.Freicar9
  else if FStringEq S "big_with_cover_PhysicsAsset.big_with_cover_PhysicsAsset_10" then
    ECityObjectLabel.Freicar10
  else ECityObjectLabel.None

/-- The keys of the folder-name ladder with their labels, in ladder order. -/
def FolderNameRules : List (String × ECityObjectLabel) :=
  [("Buildings", ECityObjectLabel.Buildings),
   ("Fences", ECityObjectLabel.Fences),
   ("Pedestrians", ECityObjectLabel.Pedestrians),
   ("Pole", ECityObjectLabel.Poles),
   ("Props", ECityObjectLabel.Other),
   ("Road", ECityObjectLabel.Roads),
   ("RoadLines", ECityObjectLabel.RoadLines),
   ("SideWalk", ECityObjectLabel.Sidewalks),
   ("TrafficSigns", ECityObjectLabel.TrafficSigns),
   ("Vegetation", ECityObjectLabel.Vegetation),
   ("Vehicles", ECityObjectLabel.Vehicles),
   ("Walls", ECityObjectLabel.Walls)]

/-- The keys of the asset-name ladder with their labels, in ladder order. -/
def AssetNameRules : List (String × ECityObjectLabel) :=
  [("big_with_cover_PhysicsAsset.big_with_cover_PhysicsAsset", ECityObjectLabel.Freicar1),
   ("big_with_cover_PhysicsAsset.big_with_cover_PhysicsAsset_2", ECityObjectLabel.Freicar2),
   ("big_with_cover_PhysicsAsset.big_with_cover_PhysicsAsset_3", ECityObjectLabel.Freicar3),
   ("big_with_cover_PhysicsAsset.big_with_cover_PhysicsAsset_4", ECityObjectLabel.Freicar4),
   ("big_with_cover_PhysicsAsset.big_with_cover_PhysicsAsset_5", ECityObjectLabel.Freicar5),
   ("big_with_cover_PhysicsAsset.big_with_cover_PhysicsAsset_6", ECityObjectLabel.Freicar6),
   ("big_with_cover_PhysicsAsset.big_with_cover_PhysicsAsset_7", ECityObjectLabel.Freicar7),
   ("big_with_cover_PhysicsAsset.big_with_cover_PhysicsAsset_8", ECityObjectLabel.Freicar8),
   ("big_with_cover_PhysicsAsset.big_with_cover_PhysicsAsset_9", ECityObjectLabel.Freicar9),
   ("big_with_cover_PhysicsAsset.big_with_cover_PhysicsAsset_10", ECityObjectLabel.Freicar10)]

/-! ## Classification of a path -/

/-- The body of `GetLabelByPath` on the path name of its object. The array is
read at `Num() - 1` first, then, behind the `Num() > 4` test, at 4. -/
def GetLabelByPath (Path : String) : Option ECityObjectLabel :=
  let StringArray := ParseIntoArray Path '/' false
  match TArrayAt StringArray ((StringArray.length : Int) - 1) with
  | none => none
  | some Last =>
    let instance_label := GetLabelByAssetName Last
    if instance_label ≠ ECityObjectLabel.None then some instance_label
    else if (StringArray.length : Int) > 4 then
      match TArrayAt StringArray 4 with
      | none => none
      | some Folder => some (GetLabelByFolderName Folder)
    else some ECityObjectLabel.None

/-- Two strings that agree once every upper-case ASCII letter is lowered. -/
def SameIgnoringCase (S K : String) : Prop :=
  S.data.map LowerAscii = K.data.map LowerAscii

instance (S K : String) : Decidable (SameIgnoringCase S K) :=
  inferInstanceAs (Decidable (S.data.map LowerAscii = K.data.map LowerAscii))

/-- A ladder read as a table: the label of the first rule whose key the
string `==`-matches, `None` when no key does. -/
def LookupRule (Rules : List (String × ECityObjectLabel)) (S : String) : ECityObjectLabel :=
  match Rules with
  | [] => ECityObjectLabel.None
  | (K, L) :: Rest => if FStringEq S K then L else LookupRule Rest S

/-! ## Display names -/

/-- The switch of `GetTagAsString`. The `default:` label stands directly before
`case None`, so a label without a case of its own returns the text of `None`. -/
def GetTagAsString (Label : ECityObjectLabel) : String :=
  match Label with
  | ECityObjectLabel.None => "None"
  | ECityObjectLabel.Buildings => "Buildings"
  | ECityObjectLabel.Fences => "Fences"
  | ECityObjectLabel.Other => "Other"
  | ECityObjectLabel.Pedestrians => "Pedestrians"
  | ECityObjectLabel.Poles => "Poles"
  | ECityObjectLabel.RoadLines => "RoadLines"
  | ECityObjectLabel.Roads => "Roads"
  | ECityObjectLabel.Sidewalks => "Sidewalks"
  | ECityObjectLabel.TrafficSigns => "TrafficSigns"
  | ECityObjectLabel.Vegetation => "Vegetation"
  | ECityObjectLabel.Vehicles => "Vehicles"
  | ECityObjectLabel.Walls => "Walls"
  | _ => "None"

/-- The thirteen labels that have a case in the switch of `GetTagAsString`. -/
def SwitchLabels : List ECityObjectLabel :=
  [ECityObjectLabel.None, ECityObjectLabel.Buildings, ECityObjectLabel.Fences,
   ECityObjectLabel.Other, ECityObjectLabel.Pedestrians, ECityObjectLabel.Poles,
   ECityObjectLabel.RoadLines, ECityObjectLabel.Roads, ECityObjectLabel.Sidewalks,
   ECityObjectLabel.TrafficSigns, ECityObjectLabel.Vegetation, ECityObjectLabel.Vehicles,
   ECityObjectLabel.Walls]

/-! ## Components and tagging -/

/-- A mesh component as the tagger sees it: the path name of its static mesh
or physics asset, and the two render properties the tagger writes. -/
structure UPrimitiveComponent where
  PathName : String
  CustomDepthStencilValue : Int
  bRenderCustomDepth : Bool
  deriving DecidableEq, Repr

/-- An actor: the arrays `GetComponents` fills for the two mesh classes. -/
structure AActor where
  StaticMeshComponents : List UPrimitiveComponent
  SkeletalMeshComponents : List UPrimitiveComponent
  deriving DecidableEq, Repr

/-- The conversion `CastEnum` of a label to its underlying integer. The
enumerator values are declared in `Tagger.h`, which is not among the sources;
they are the parameter `Code`, a byte as the enum's underlying type is. -/
def CastEnum (Code : ECityObjectLabel → Fin 256) (label : ECityObjectLabel) : Int :=
  ((Code label).val : Int)

/-- The engine setter `SetCustomDepthStencilValue`: the value is clamped to
the stencil range 0..255 and stored. -/
def SetCustomDepthStencilValue (Component : UPrimitiveComponent) (Value : Int) :
    UPrimitiveComponent :=
  { Component with CustomDepthStencilValue := max 0 (min Value 255) }

/-- The engine setter `SetRenderCustomDepth`: the flag is stored. -/
def SetRenderCustomDepth (Component : UPrimitiveComponent) (bValue : Bool) :
    UPrimitiveComponent :=
  { Component with bRenderCustomDepth := bValue }

/-- The body of `SetStencilValue`: both setters, in source order. -/
def SetStencilValue (Code : ECityObjectLabel → Fin 256) (Component : UPrimitiveComponent)
    (Label : ECityObjectLabel) (bSetRenderCustomDepth : Bool) : UPrimitiveComponent :=
  SetRenderCustomDepth (SetCustomDepthStencilValue Component (CastEnum Code Label))
    (bSetRenderCustomDepth && decide (Label ≠ ECityObjectLabel.None))

/-- The body shared by the two loops of `TagActor`: classify the component's
path and write the stencil only for a label other than `None`. -/
def TagComponent (Code : ECityObjectLabel → Fin 256) (bTagForSemanticSegmentation : Bool)
    (Component : UPrimitiveComponent) : Option UPrimitiveComponent :=
  match GetLabelByPath Component.PathName with
  | none => none
  | some Label =>
    if Label ≠ ECityObjectLabel.None then
      some (SetStencilValue Code Component Label bTagForSemanticSegmentation)
    else some Component

/-- One `for` loop of `TagActor` over an array of components, in array order. -/
def TagComponents (Code : ECityObjectLabel → Fin 256) (bTagForSemanticSegmentation : Bool) :
    List UPrimitiveComponent → Option (List UPrimitiveComponent)
  | [] => some []
  | Component :: Rest =>
    match TagComponent Code bTagForSemanticSegmentation Component with
    | none => none
    | some Tagged =>
      match TagComponents Code bTagForSemanticSegmentation Rest with
      | none => none
      | some TaggedRest => some (Tagged :: TaggedRest)

/-- The function `ATagger::TagActor`: the static meshes first, then the skeletal meshes. -/
def TagActor (Code : ECityObjectLabel → Fin 256) (Actor : AActor)
    (bTagForSemanticSegmentation : Bool) : Option AActor :=
  match TagComponents Code bTagForSemanticSegmentation Actor.StaticMeshComponents with
  | none => none
  | some Static =>
    match TagComponents Code bTagForSemanticSegmentation Actor.SkeletalMeshComponents with
    | none => none
    | some Skeletal =>
      some { StaticMeshComponents := Static, SkeletalMeshComponents := Skeletal }

/-- The function `ATagger::GetTagsOfTaggedActor` on the array `GetComponents` fills
with the actor's primitive components; a null pointer is `none`. The function
`GetTagOfTaggedComponent`, declared in `Tagger.h`, is a parameter. The set
`Tags` is passed in and returned. -/
def GetTagsOfTaggedActor (GetTagOfTaggedComponent : UPrimitiveComponent → ECityObjectLabel) :
    List (Option UPrimitiveComponent) → Finset ECityObjectLabel → Finset ECityObjectLabel
  | [], Tags => Tags
  | none :: Rest, Tags => GetTagsOfTaggedActor GetTagOfTaggedComponent Rest Tags
  | some Component :: Rest, Tags =>
    if GetTagOfTaggedComponent Component ≠ ECityObjectLabel.None then
      GetTagsOfTaggedActor GetTagOfTaggedComponent Rest
        (insert (GetTagOfTaggedComponent Component) Tags)
    else GetTagsOfTaggedActor GetTagOfTaggedComponent Rest Tags

/-- The function `ATagger::TagActorsInLevel`: `TagActor` on every actor of the
world, in the order of the actor iterator. An actor holds its own components,
so the actors of a world own pairwise disjoint components. -/
def TagActorsInLevel (Code : ECityObjectLabel → Fin 256) :
    List AActor → Bool → Option (List AActor)
  | [], _ => some []
  | Actor :: Rest, bTagForSemanticSegmentation =>
    match TagActor Code Actor bTagForSemanticSegmentation with
    | none => none
    | some Tagged =>
      match TagActorsInLevel Code Rest bTagForSemanticSegmentation with
      | none => none
      | some TaggedRest => some (Tagged :: TaggedRest)

/-- One call `TagActor(a, b)` on the actor at position `i` of a world: the
world with that actor's components as the call leaves them. -/
def TagActorAt (Code : ECityObjectLabel → Fin 256) (bTagForSemanticSegmentation : Bool)
    (World : List AActor) (i : Nat) : Option (List AActor) :=
  match World[i]? with
  | none => none
  | some Actor =>
    match TagActor Code Actor bTagForSemanticSegmentation with
    | none => none
    | some Tagged => some (World.set i Tagged)

/-- The calls `TagActor(a, b)` made one after the other on the actors at the
positions `Order` lists, in that order. -/
def TagActorsInOrder (Code : ECityObjectLabel → Fin 256) (bTagForSemanticSegmentation : Bool) :
    List Nat → List AActor → Option (List AActor)
  | [], World => some World
  | i :: Rest, World =>
    match TagActorAt Code bTagForSemanticSegmentation World i with
    | none => none
    | some Next => TagActorsInOrder Code bTagForSemanticSegmentation Rest Next

/-- Modelled from the spec: the enumerator values of `ECityObjectLabel` are
declared in `Tagger.h`, which is not among the sources. The spec gives every
label a unique stable numeric code with `None` as the zero value; the model
numbers the labels in the order of the enum, from `None` = 0. -/
def EnumeratorValue : ECityObjectLabel → Fin 256
  | ECityObjectLabel.None => 0
  | ECityObjectLabel.Buildings => 1
  | ECityObjectLabel.Fences => 2
  | ECityObjectLabel.Other => 3
  | ECityObjectLabel.Pedestrians => 4
  | ECityObjectLabel.Poles => 5
  | ECityObjectLabel.RoadLines => 6
  | ECityObjectLabel.Roads => 7
  | ECityObjectLabel.Sidewalks => 8
  | ECityObjectLabel.TrafficSigns => 9
  | ECityObjectLabel.Vegetation => 10
  | ECityObjectLabel.Vehicles => 11
  | ECityObjectLabel.Walls => 12
  | ECityObjectLabel.Freicar1 => 13
  | ECityObjectLabel.Freicar2 => 14
  | ECityObjectLabel.Freicar3 => 15
  | ECityObjectLabel.Freicar4 => 16
  | ECityObjectLabel.Freicar5 => 17
  | ECityObjectLabel.Freicar6 => 18
  | ECityObjectLabel.Freicar7 => 19
  | ECityObjectLabel.Freicar8 => 20
  | ECityObjectLabel.Freicar9 => 21
  | ECityObjectLabel.Freicar10 => 22

/-- The key-value table lookup of the specification: the label paired with the
string in the table when the string is a key, `None` otherwise. -/
def TableLookup (Rules : List (String × ECityObjectLabel)) (S : String) : ECityObjectLabel :=
  match Rules.find? (fun R => decide (R.1 = S)) with
  | some R => R.2
  | none => ECityObjectLabel.None

/-! ## The editor hook -/

/-- The two properties of `ATagger` the editor hook reads and writes. -/
structure ATagger where
  bTriggerTagObjects : Bool
  bTagForSemanticSegmentation : Bool
  deriving DecidableEq, Repr

/-- The event passed to the editor hook: the changed property by name, `none`
for a null `Property` pointer. -/
structure FPropertyChangedEvent where
  Property : Option String
  deriving DecidableEq, Repr

/-- What a returned call of the editor hook leaves: the tagger's properties,
the world `GetWorld()` gives (`none` for a null pointer), and the calls of
`TagActorsInLevel` made, each recorded by its flag argument. -/
structure EditOutcome where
  Tagger : ATagger
  World : Option (List AActor)
  TagActorsInLevelCalls : List Bool
  deriving DecidableEq, Repr

/-- The function `ATagger::PostEditChangeProperty`. The call of the base class
is the engine's and is left out. The two nested tests guard the one call of
`TagActorsInLevel`; the trigger is cleared last, on every path. -/
def PostEditChangeProperty (Code : ECityObjectLabel → Fin 256) (Tagger : ATagger)
    (PropertyChangedEvent : FPropertyChangedEvent) (World : Option (List AActor)) :
    Option EditOutcome :=
  let Ran : Option (Option (List AActor) × List Bool) :=
    if PropertyChangedEvent.Property.isSome then
      match Tagger.bTriggerTagObjects, World with
      | true, some Actors =>
        match TagActorsInLevel Code Actors Tagger.bTagForSemanticSegmentation with
        | none => none
        | some Tagged => some (some Tagged, [Tagger.bTagForSemanticSegmentation])
      | _, _ => some (World, [])
    else some (World, [])
  match Ran with
  | none => none
  | some (After, Calls) =>
    some { Tagger := { Tagger with bTriggerTagObjects := false },
           World := After, TagActorsInLevelCalls := Calls }

/-! ## Array accesses of `GetLabelByPath` -/

theorem TArrayAt_last {α : Type} (A : List α) :
    TArrayAt A ((A.length : Int) - 1) = A.getLast? := by
  unfold TArrayAt
  cases A with
  | nil => simp
  | cons x xs =>
    have h : ((x :: xs).length : Int) - 1 = (xs.length : Int) := by simp
    rw [h]
    simp [List.getLast?_eq_getElem?]

theorem TArrayAt_four {α : Type} (A : List α) : TArrayAt A 4 = A[4]? := by
  unfold TArrayAt
  by_cases h : 4 < A.length
  · have h' : (0 : Int) ≤ 4 ∧ (4 : Int) < (A.length : Int) := ⟨by decide, by exact_mod_cast h⟩
    rw [if_pos h']
    rfl
  · have h' : ¬ ((0 : Int) ≤ 4 ∧ (4 : Int) < (A.length : Int)) := by
      intro hc
      exact h (by exact_mod_cast hc.2)
    rw [if_neg h']
    exact (List.getElem?_eq_none (Nat.le_of_not_lt h)).symm

theorem ParseLoop_ne_nil (Delim : Char) (Rest Cur : List Char) :
    ParseLoop Delim false Cur Rest ≠ [] := by
  induction Rest generalizing Cur with
  | nil => simp [ParseLoop]
  | cons C Rest ih =>
    unfold ParseLoop
    by_cases h : C = Delim
    · simp [h]
    · simp only [h, if_false]
      exact ih (C :: Cur)

theorem ParseIntoArray_eq_nil_iff (Path : String) :
    ParseIntoArray Path '/' false = [] ↔ Path = "" := by
  unfold ParseIntoArray
  constructor
  · intro h
    by_cases hd : Path.data = []
    · exact String.ext hd
    · rw [if_neg hd] at h
      exact absurd h (ParseLoop_ne_nil '/' Path.data [])
  · intro h
    subst h
    rfl

/-- The body of `GetLabelByPath` with its two array accesses resolved. -/
theorem GetLabelByPath_eq (Path : String) :
    GetLabelByPath Path =
      match (ParseIntoArray Path '/' false).getLast? with
      | none => none
      | some Last =>
        if GetLabelByAssetName Last ≠ ECityObjectLabel.None then
          some (GetLabelByAssetName Last)
        else if 4 < (ParseIntoArray Path '/' false).length then
          ((ParseIntoArray Path '/' false)[4]?).map GetLabelByFolderName
        else some ECityObjectLabel.None := by
  unfold GetLabelByPath
  simp only [TArrayAt_last, TArrayAt_four]
  cases hL : (ParseIntoArray Path '/' false).getLast? with
  | none => rfl
  | some Last =>
    simp only []
    by_cases hA : GetLabelByAssetName Last = ECityObjectLabel.None
    · simp only [hA, ne_eq, not_true_eq_false, if_false]
      by_cases h4 : 4 < (ParseIntoArray Path '/' false).length
      · have h4' : ((ParseIntoArray Path '/' false).length : Int) > 4 := by exact_mod_cast h4
        simp only [h4, h4', if_true]
        cases (ParseIntoArray Path '/' false)[4]? <;> rfl
      · have h4' : ¬ ((ParseIntoArray Path '/' false).length : Int) > 4 := by
          intro hc
          exact h4 (by exact_mod_cast hc)
        simp only [h4, h4', if_false]
    · simp only [ne_eq, hA, not_false_eq_true, if_true]

/-! ## The string comparison of the ladders -/

theorem LowerAscii_eq_zero_iff (C : Char) : LowerAscii C = 0 ↔ C.toNat = 0 := by
  unfold LowerAscii
  split <;> omega

theorem Char_eq_of_toNat_eq {C1 C2 : Char} (h : C1.toNat = C2.toNat) : C1 = C2 := by
  have h1 : Char.ofNat C1.toNat = C1 := Char.ofNat_toNat C1
  have h2 : Char.ofNat C2.toNat = C2 := Char.ofNat_toNat C2
  rw [← h1, ← h2, h]

theorem BothAscii_of_LowerAscii_eq {C1 C2 : Char} (hne : C1 ≠ C2)
    (h : LowerAscii C1 = LowerAscii C2) : BothAscii C1 C2 = true := by
  have hn : C1.toNat ≠ C2.toNat := fun hc => hne (Char_eq_of_toNat_eq hc)
  unfold LowerAscii at h
  unfold BothAscii
  simp only [Bool.and_eq_true, decide_eq_true_eq]
  split at h <;> split at h <;> omega

/-- Strings that agree up to ASCII letter case compare equal. -/
theorem Stricmp_eq_zero_of_map_eq (A B : List Char)
    (h : A.map LowerAscii = B.map LowerAscii) : Stricmp A B = 0 := by
  induction A generalizing B with
  | nil =>
    cases B with
    | nil => simp [Stricmp]
    | cons C2 S2 => simp at h
  | cons C1 S1 ih =>
    cases B with
    | nil => simp at h
    | cons C2 S2 =>
      simp only [List.map_cons, List.cons.injEq] at h
      unfold Stricmp
      by_cases hc : C1 = C2
      · rw [if_pos hc]
        split
        · rfl
        · exact ih S2 h.2
      · rw [if_neg hc, if_pos (BothAscii_of_LowerAscii_eq hc h.1)]
        have hz : ¬ ((LowerAscii C1 : Int) - (LowerAscii C2 : Int) ≠ 0) := by
          rw [h.1]; simp
        rw [if_neg hz]
        exact ih S2 h.2

/-- Strings without the terminator inside that compare equal agree up to
ASCII letter case. -/
theorem map_eq_of_Stricmp_eq_zero (A B : List Char)
    (hA : 0 ∉ A.map LowerAscii) (hB : 0 ∉ B.map LowerAscii)
    (h : Stricmp A B = 0) : A.map LowerAscii = B.map LowerAscii := by
  induction A generalizing B with
  | nil =>
    cases B with
    | nil => rfl
    | cons C2 S2 =>
      simp only [Stricmp] at h
      simp only [List.map_cons, List.mem_cons, not_or] at hB
      omega
  | cons C1 S1 ih =>
    simp only [List.map_cons, List.mem_cons, not_or] at hA
    cases B with
    | nil =>
      simp only [Stricmp] at h
      omega
    | cons C2 S2 =>
      simp only [List.map_cons, List.mem_cons, not_or] at hB
      unfold Stricmp at h
      by_cases hc : C1 = C2
      · rw [if_pos hc] at h
        have hn : ¬ C1.toNat = 0 := fun hz => hA.1 ((LowerAscii_eq_zero_iff C1).2 hz).symm
        rw [if_neg hn] at h
        simp only [List.map_cons, hc, ih S2 hA.2 hB.2 h]
      · rw [if_neg hc] at h
        by_cases hb : BothAscii C1 C2 = true
        · rw [if_pos hb] at h
          by_cases hd : (LowerAscii C1 : Int) - (LowerAscii C2 : Int) ≠ 0
          · rw [if_pos hd] at h
            exact absurd h hd
          · rw [if_neg hd] at h
            have he : LowerAscii C1 = LowerAscii C2 := by omega
            simp only [List.map_cons, he, ih S2 hA.2 hB.2 h]
        · rw [if_neg hb] at h
          exact absurd (Char_eq_of_toNat_eq (by omega)) hc

/-- A string that agrees with a key up to letter case `==`-matches it. -/
theorem FStringEq_of_SameIgnoringCase {S K : String} (h : SameIgnoringCase S K) :
    FStringEq S K = true := by
  unfold FStringEq
  rw [Stricmp_eq_zero_of_map_eq S.data K.data h]
  rfl

/-- A string that agrees with a key up to letter case does not `==`-match a
string that differs from the key by more than letter case. -/
theorem FStringEq_false_of_SameIgnoringCase {S K K2 : String} (h : SameIgnoringCase S K)
    (hK : 0 ∉ K.data.map LowerAscii) (hK2 : 0 ∉ K2.data.map LowerAscii)
    (hne : ¬ SameIgnoringCase K K2) : FStringEq S K2 = false := by
  unfold FStringEq
  have hS : 0 ∉ S.data.map LowerAscii := by
    unfold SameIgnoringCase at h
    rw [h]; exact hK
  by_cases hz : Stricmp S.data K2.data = 0
  · exfalso
    apply hne
    unfold SameIgnoringCase at h ⊢
    rw [← h]
    exact map_eq_of_Stricmp_eq_zero S.data K2.data hS hK2 hz
  · simpa using hz

/-! ## The ladders as tables -/

theorem GetLabelByFolderName_eq_LookupRule (S : String) :
    GetLabelByFolderName S = LookupRule FolderNameRules S := rfl

theorem GetLabelByAssetName_eq_LookupRule (S : String) :
    GetLabelByAssetName S = LookupRule AssetNameRules S := rfl

/-- The first-match lookup returns the label of a key the string agrees with
up to letter case, when no two keys of the table agree up to letter case. -/
theorem LookupRule_of_SameIgnoringCase (Rules : List (String × ECityObjectLabel))
    (hNul : ∀ R ∈ Rules, 0 ∉ R.1.data.map LowerAscii)
    (hPair : Rules.Pairwise (fun R R2 => ¬ SameIgnoringCase R.1 R2.1))
    (S K : String) (L : ECityObjectLabel) (hMem : (K, L) ∈ Rules)
    (hSame : SameIgnoringCase S K) : LookupRule Rules S = L := by
  induction Rules with
  | nil => simp at hMem
  | cons R Rest ih =>
    obtain ⟨K0, L0⟩ := R
    unfold LookupRule
    rw [List.pairwise_cons] at hPair
    rcases List.mem_cons.1 hMem with hEq | hIn
    · cases hEq
      rw [if_pos (FStringEq_of_SameIgnoringCase hSame)]
    · have hne : ¬ SameIgnoringCase K K0 := by
        intro hc
        apply hPair.1 (K, L) hIn
        unfold SameIgnoringCase at hc ⊢
        exact hc.symm
      have hf : FStringEq S K0 = false :=
        FStringEq_false_of_SameIgnoringCase hSame (hNul (K, L) (List.mem_cons_of_mem _ hIn))
          (hNul (K0, L0) (List.mem_cons_self _ _)) hne
      simp only [hf, Bool.false_eq_true, if_false]
      exact ih (fun R hR => hNul R (List.mem_cons_of_mem _ hR)) hPair.2 hIn

/-- The first-match lookup returns `None` for a string no key matches. -/
theorem LookupRule_of_no_match (Rules : List (String × ECityObjectLabel)) (S : String)
    (hNo : ∀ R ∈ Rules, FStringEq S R.1 = false) :
    LookupRule Rules S = ECityObjectLabel.None := by
  induction Rules with
  | nil => rfl
  | cons R Rest ih =>
    obtain ⟨K0, L0⟩ := R
    unfold LookupRule
    have hf : FStringEq S K0 = false := hNo (K0, L0) (List.mem_cons_self _ _)
    simp only [hf, Bool.false_eq_true, if_false]
    exact ih (fun R hR => hNo R (List.mem_cons_of_mem _ hR))

theorem AssetNameRules_nul_free : ∀ R ∈ AssetNameRules, 0 ∉ R.1.data.map LowerAscii := by
  decide

theorem FolderNameRules_nul_free : ∀ R ∈ FolderNameRules, 0 ∉ R.1.data.map LowerAscii := by
  decide

theorem AssetNameRules_pairwise :
    AssetNameRules.Pairwise (fun R R2 => ¬ SameIgnoringCase R.1 R2.1) := by
  decide

theorem FolderNameRules_pairwise :
    FolderNameRules.Pairwise (fun R R2 => ¬ SameIgnoringCase R.1 R2.1) := by
  decide

theorem AssetNameRules_label_ne_None :
    ∀ R ∈ AssetNameRules, R.2 ≠ ECityObjectLabel.None := by
  decide

theorem GetLabelByAssetName_of_rule (S K : String) (L : ECityObjectLabel)
    (hMem : (K, L) ∈ AssetNameRules) (hSame : SameIgnoringCase S K) :
    GetLabelByAssetName S = L := by
  rw [GetLabelByAssetName_eq_LookupRule]
  exact LookupRule_of_SameIgnoringCase AssetNameRules AssetNameRules_nul_free
    AssetNameRules_pairwise S K L hMem hSame

theorem GetLabelByFolderName_of_rule (S K : String) (L : ECityObjectLabel)
    (hMem : (K, L) ∈ FolderNameRules) (hSame : SameIgnoringCase S K) :
    GetLabelByFolderName S = L := by
  rw [GetLabelByFolderName_eq_LookupRule]
  exact LookupRule_of_SameIgnoringCase FolderNameRules FolderNameRules_nul_free
    FolderNameRules_pairwise S K L hMem hSame

theorem GetLabelByAssetName_of_no_match (S : String)
    (hNo : ∀ R ∈ AssetNameRules, FStringEq S R.1 = false) :
    GetLabelByAssetName S = ECityObjectLabel.None := by
  rw [GetLabelByAssetName_eq_LookupRule]
  exact LookupRule_of_no_match AssetNameRules S hNo

theorem GetLabelByFolderName_of_no_match (S : String)
    (hNo : ∀ R ∈ FolderNameRules, FStringEq S R.1 = false) :
    GetLabelByFolderName S = ECityObjectLabel.None := by
  rw [GetLabelByFolderName_eq_LookupRule]
  exact LookupRule_of_no_match FolderNameRules S hNo

/-! ## Classification of a path: the claims -/

/-- C1 (asset-name priority). For every path whose last segment of the split
on '/' is a key of the asset-name ladder, paired there with the label `L`
(one of `Freicar1` .. `Freicar10`), `GetLabelByPath` returns `L`. Nothing is
asked of the segment at index 4, so the result is `L` also when that segment
is a folder-name key. -/
theorem GetLabelByPath_asset_priority (Path Key : String) (L : ECityObjectLabel)
    (hKey : (Key, L) ∈ AssetNameRules)
    (hLast : (ParseIntoArray Path '/' false).getLast? = some Key) :
    GetLabelByPath Path = some L := by
  have hA : GetLabelByAssetName Key = L := GetLabelByAssetName_of_rule Key Key L hKey rfl
  have hL : L ≠ ECityObjectLabel.None := AssetNameRules_label_ne_None (Key, L) hKey
  rw [GetLabelByPath_eq, hLast]
  simp only [hA, ne_eq, hL, not_false_eq_true, if_true]

/-- Witness of C1: the path of the claim, whose folder segment `Road` is a
folder-name key with label `Roads`, is classified `Freicar3`. -/
theorem GetLabelByPath_asset_priority_witness :
    (ParseIntoArray
        "/Game/Static/Env/Road/big_with_cover_PhysicsAsset.big_with_cover_PhysicsAsset_3"
        '/' false)[4]? = some "Road"
      ∧ GetLabelByFolderName "Road" = ECityObjectLabel.Roads
      ∧ GetLabelByPath
          "/Game/Static/Env/Road/big_with_cover_PhysicsAsset.big_with_cover_PhysicsAsset_3"
          = some ECityObjectLabel.Freicar3 :=
  ⟨by decide, by decide,
    GetLabelByPath_asset_priority
      "/Game/Static/Env/Road/big_with_cover_PhysicsAsset.big_with_cover_PhysicsAsset_3"
      "big_with_cover_PhysicsAsset.big_with_cover_PhysicsAsset_3"
      ECityObjectLabel.Freicar3 (by decide) (by decide)⟩

/-- C2 (folder fallback). For every path that splits on '/' (empty segments
kept) into more than 4 segments, with last segment `Last` that `==`-matches no
key of the asset-name ladder and with segment `Folder` at index 4,
`GetLabelByPath` returns `GetLabelByFolderName Folder`. -/
theorem GetLabelByPath_folder_fallback (Path Last Folder : String)
    (hLen : 4 < (ParseIntoArray Path '/' false).length)
    (hLast : (ParseIntoArray Path '/' false).getLast? = some Last)
    (hNo : ∀ R ∈ AssetNameRules, FStringEq Last R.1 = false)
    (hFolder : (ParseIntoArray Path '/' false)[4]? = some Folder) :
    GetLabelByPath Path = some (GetLabelByFolderName Folder) := by
  have hA : GetLabelByAssetName Last = ECityObjectLabel.None :=
    GetLabelByAssetName_of_no_match Last hNo
  rw [GetLabelByPath_eq, hLast]
  simp only [hA, ne_eq, not_true_eq_false, if_false, hLen, if_true, hFolder, Option.map_some']

/-- Witness of C2: the path of the claim splits into 6 segments, has `Road` at
index 4 and is classified `Roads`. -/
theorem GetLabelByPath_folder_fallback_witness :
    (ParseIntoArray "/Game/Static/Env/Road/unknown.asset" '/' false).length = 6
      ∧ (ParseIntoArray "/Game/Static/Env/Road/unknown.asset" '/' false)[4]? = some "Road"
      ∧ GetLabelByPath "/Game/Static/Env/Road/unknown.asset"
          = some (GetLabelByFolderName "Road")
      ∧ GetLabelByFolderName "Road" = ECityObjectLabel.Roads :=
  ⟨by decide, by decide,
    GetLabelByPath_folder_fallback "/Game/Static/Env/Road/unknown.asset" "unknown.asset" "Road"
      (by decide) (by decide) (by decide) (by decide),
    by decide⟩

/-- C3, the claim refuted at the empty path string. The empty path splits into
an array of no segments, so the first access of `GetLabelByPath`, at index
`Num() - 1`, is at index -1 of an empty array: it is out of range and no label
is returned. -/
theorem GetLabelByPath_empty_path_out_of_range :
    ParseIntoArray "" '/' false = []
      ∧ ((ParseIntoArray "" '/' false).length : Int) - 1 = -1
      ∧ TArrayAt (ParseIntoArray "" '/' false)
          (((ParseIntoArray "" '/' false).length : Int) - 1) = none
      ∧ GetLabelByPath "" = none := by
  decide

/-- The empty path is the only one `GetLabelByPath` fails on: a label is
returned exactly for the non-empty paths. -/
theorem GetLabelByPath_isSome_iff (Path : String) :
    (GetLabelByPath Path).isSome = true ↔ Path ≠ "" := by
  rw [GetLabelByPath_eq]
  constructor
  · intro h hE
    subst hE
    revert h
    decide
  · intro hNe
    have hA : ParseIntoArray Path '/' false ≠ [] :=
      fun hc => hNe ((ParseIntoArray_eq_nil_iff Path).1 hc)
    cases hL : (ParseIntoArray Path '/' false).getLast? with
    | none => exact absurd (List.getLast?_eq_none_iff.1 hL) hA
    | some Last =>
      simp only []
      split
      · rfl
      · split
        · rename_i h4
          have h4' : 4 < (ParseIntoArray Path '/' false).length := h4
          rw [List.getElem?_eq_getElem h4']
          rfl
        · rfl

/-- C3 as amended. The function `GetLabelByPath` is total on the paths it can
receive, the non-empty ones (a path name ends in the name of its object, and
is `None` for a null object): for every non-empty path string, a string with
no '/' included, it returns a label; the access at index `Num() - 1` is in
range, and so is the access at index 4 whenever it is made, behind the test
`Num() > 4`; and the same path always yields the same label. -/
theorem GetLabelByPath_total_on_nonempty (Path : String) (hNe : Path ≠ "") :
    (∃ L, GetLabelByPath Path = some L)
      ∧ (∃ Last, TArrayAt (ParseIntoArray Path '/' false)
            (((ParseIntoArray Path '/' false).length : Int) - 1) = some Last)
      ∧ (((ParseIntoArray Path '/' false).length : Int) > 4 →
          ∃ Folder, TArrayAt (ParseIntoArray Path '/' false) 4 = some Folder)
      ∧ (∀ Path2, Path2 = Path → GetLabelByPath Path2 = GetLabelByPath Path) := by
  refine ⟨?_, ?_, ?_, fun Path2 h => by rw [h]⟩
  · have h := (GetLabelByPath_isSome_iff Path).2 hNe
    cases hL : GetLabelByPath Path with
    | none => simp [hL] at h
    | some L => exact ⟨L, rfl⟩
  · have hA : ParseIntoArray Path '/' false ≠ [] :=
      fun hc => hNe ((ParseIntoArray_eq_nil_iff Path).1 hc)
    rw [TArrayAt_last]
    cases hL : (ParseIntoArray Path '/' false).getLast? with
    | none => exact absurd (List.getLast?_eq_none_iff.1 hL) hA
    | some Last => exact ⟨Last, rfl⟩
  · intro h4
    have h4' : 4 < (ParseIntoArray Path '/' false).length := by exact_mod_cast h4
    rw [TArrayAt_four, List.getElem?_eq_getElem h4']
    exact ⟨_, rfl⟩

/-- Witness of the amended C3: a path with no '/' at all, and the path name
`None` of a null object, both classified `None`. -/
theorem GetLabelByPath_total_on_nonempty_witness :
    (∃ L, GetLabelByPath "onlyonesegment" = some L)
      ∧ GetLabelByPath "onlyonesegment" = some ECityObjectLabel.None
      ∧ GetLabelByPath "None" = some ECityObjectLabel.None :=
  ⟨(GetLabelByPath_total_on_nonempty "onlyonesegment" (by decide)).1, by decide, by decide⟩

/-- C4, the claim refuted at the empty path string. On the empty path
`GetLabelByPath` does not return `None`: it returns nothing, the out-of-range
access coming first. The other path the claim names, one segment long, does
give `None`. -/
theorem GetLabelByPath_empty_path_not_None :
    GetLabelByPath "" ≠ some ECityObjectLabel.None
      ∧ GetLabelByPath "" = none
      ∧ GetLabelByPath "onlyonesegment" = some ECityObjectLabel.None := by
  decide

/-- C4 as amended. On every path that has a last segment, which is every
non-empty path, `GetLabelByPath` returns `None` whenever no rule applies: the
last segment matches no asset-name key, and the path has 4 or fewer segments
or a segment at index 4 that matches no folder-name key. -/
theorem GetLabelByPath_None_of_no_rule (Path Last : String)
    (hLast : (ParseIntoArray Path '/' false).getLast? = some Last)
    (hNo : ∀ R ∈ AssetNameRules, FStringEq Last R.1 = false)
    (hFolder : (ParseIntoArray Path '/' false).length ≤ 4
      ∨ ∃ Folder, (ParseIntoArray Path '/' false)[4]? = some Folder
          ∧ ∀ R ∈ FolderNameRules, FStringEq Folder R.1 = false) :
    GetLabelByPath Path = some ECityObjectLabel.None := by
  have hA : GetLabelByAssetName Last = ECityObjectLabel.None :=
    GetLabelByAssetName_of_no_match Last hNo
  rw [GetLabelByPath_eq, hLast]
  simp only [hA, ne_eq, not_true_eq_false, if_false]
  rcases hFolder with hShort | ⟨Folder, hF, hNoF⟩
  · rw [if_neg (Nat.not_lt.2 hShort)]
  · split
    · rw [hF, Option.map_some', GetLabelByFolderName_of_no_match Folder hNoF]
    · rfl

/-- Witness of the amended C4: an unknown folder with an unknown asset name,
and the path of one segment the claim names. -/
theorem GetLabelByPath_None_of_no_rule_witness :
    GetLabelByPath "/Game/Static/Env/Unknown/unknown.asset" = some ECityObjectLabel.None
      ∧ GetLabelByPath "onlyonesegment" = some ECityObjectLabel.None :=
  ⟨GetLabelByPath_None_of_no_rule "/Game/Static/Env/Unknown/unknown.asset" "unknown.asset"
      (by decide) (by decide) (Or.inr ⟨"Unknown", by decide, by decide⟩),
   GetLabelByPath_None_of_no_rule "onlyonesegment" "onlyonesegment"
      (by decide) (by decide) (Or.inl (by decide))⟩

/-! ## Tagging an actor -/

/-- Each loop of `TagActor` that completes has run the loop body on every
element, in place. -/
theorem TagComponents_getElem (Code : ECityObjectLabel → Fin 256) (b : Bool)
    (Cs Tagged : List UPrimitiveComponent) (h : TagComponents Code b Cs = some Tagged)
    (i : Nat) (C : UPrimitiveComponent) (hC : Cs[i]? = some C) :
    ∃ C2, Tagged[i]? = some C2 ∧ TagComponent Code b C = some C2 := by
  induction Cs generalizing Tagged i with
  | nil => simp at hC
  | cons C0 Rest ih =>
    unfold TagComponents at h
    cases h0 : TagComponent Code b C0 with
    | none => simp [h0] at h
    | some T0 =>
      cases hR : TagComponents Code b Rest with
      | none => simp [h0, hR] at h
      | some TR =>
        simp only [h0, hR, Option.some.injEq] at h
        subst h
        cases i with
        | zero =>
          simp only [List.getElem?_cons_zero, Option.some.injEq] at hC
          subst hC
          exact ⟨T0, by simp, h0⟩
        | succ j =>
          simp only [List.getElem?_cons_succ] at hC
          obtain ⟨C2, h1, h2⟩ := ih TR hR j hC
          exact ⟨C2, by simpa using h1, h2⟩

theorem TagComponents_length (Code : ECityObjectLabel → Fin 256) (b : Bool)
    (Cs Tagged : List UPrimitiveComponent) (h : TagComponents Code b Cs = some Tagged) :
    Tagged.length = Cs.length := by
  induction Cs generalizing Tagged with
  | nil =>
    simp only [TagComponents, Option.some.injEq] at h
    subst h
    rfl
  | cons C0 Rest ih =>
    unfold TagComponents at h
    cases h0 : TagComponent Code b C0 with
    | none => simp [h0] at h
    | some T0 =>
      cases hR : TagComponents Code b Rest with
      | none => simp [h0, hR] at h
      | some TR =>
        simp only [h0, hR, Option.some.injEq] at h
        subst h
        simp [ih TR hR]

/-- A loop of `TagActor` completes when the loop body does on every element. -/
theorem TagComponents_isSome (Code : ECityObjectLabel → Fin 256) (b : Bool)
    (Cs : List UPrimitiveComponent)
    (h : ∀ C ∈ Cs, (TagComponent Code b C).isSome = true) :
    (TagComponents Code b Cs).isSome = true := by
  induction Cs with
  | nil => rfl
  | cons C0 Rest ih =>
    unfold TagComponents
    have h0 := h C0 (List.mem_cons_self _ _)
    have hR := ih (fun C hC => h C (List.mem_cons_of_mem _ hC))
    cases hT : TagComponent Code b C0 with
    | none => simp [hT] at h0
    | some T0 =>
      cases hTR : TagComponents Code b Rest with
      | none => simp [hTR] at hR
      | some TR => rfl

theorem TagComponent_isSome (Code : ECityObjectLabel → Fin 256) (b : Bool)
    (C : UPrimitiveComponent) (h : C.PathName ≠ "") :
    (TagComponent Code b C).isSome = true := by
  unfold TagComponent
  cases hL : GetLabelByPath C.PathName with
  | none =>
    have := (GetLabelByPath_isSome_iff C.PathName).2 h
    simp [hL] at this
  | some L =>
    simp only []
    split <;> rfl

theorem TagActor_parts (Code : ECityObjectLabel → Fin 256) (Actor Tagged : AActor) (b : Bool)
    (h : TagActor Code Actor b = some Tagged) :
    TagComponents Code b Actor.StaticMeshComponents = some Tagged.StaticMeshComponents
      ∧ TagComponents Code b Actor.SkeletalMeshComponents
          = some Tagged.SkeletalMeshComponents := by
  unfold TagActor at h
  cases hS : TagComponents Code b Actor.StaticMeshComponents with
  | none => simp [hS] at h
  | some S =>
    cases hK : TagComponents Code b Actor.SkeletalMeshComponents with
    | none => simp [hS, hK] at h
    | some K =>
      simp only [hS, hK, Option.some.injEq] at h
      subst h
      exact ⟨rfl, rfl⟩

theorem TagComponent_of_None (Code : ECityObjectLabel → Fin 256) (b : Bool)
    (C : UPrimitiveComponent) (h : GetLabelByPath C.PathName = some ECityObjectLabel.None) :
    TagComponent Code b C = some C := by
  unfold TagComponent
  rw [h]
  simp

theorem TagComponent_of_label (Code : ECityObjectLabel → Fin 256) (b : Bool)
    (C : UPrimitiveComponent) (L : ECityObjectLabel)
    (h : GetLabelByPath C.PathName = some L) (hL : L ≠ ECityObjectLabel.None) :
    TagComponent Code b C = some (SetStencilValue Code C L b) := by
  unfold TagComponent
  rw [h]
  simp [hL]

theorem SetStencilValue_fields (Code : ECityObjectLabel → Fin 256) (C : UPrimitiveComponent)
    (L : ECityObjectLabel) (b : Bool) :
    (SetStencilValue Code C L b).CustomDepthStencilValue = CastEnum Code L
      ∧ (SetStencilValue Code C L b).bRenderCustomDepth
          = (b && decide (L ≠ ECityObjectLabel.None))
      ∧ (SetStencilValue Code C L b).PathName = C.PathName := by
  unfold SetStencilValue SetRenderCustomDepth SetCustomDepthStencilValue CastEnum
  refine ⟨?_, rfl, rfl⟩
  have h := (Code L).isLt
  simp only
  omega

/-- The call `TagActor` returns on every actor none of whose mesh or physics
asset paths is empty. -/
theorem TagActor_isSome (Code : ECityObjectLabel → Fin 256) (Actor : AActor) (b : Bool)
    (hS : ∀ C ∈ Actor.StaticMeshComponents, C.PathName ≠ "")
    (hK : ∀ C ∈ Actor.SkeletalMeshComponents, C.PathName ≠ "") :
    (TagActor Code Actor b).isSome = true := by
  unfold TagActor
  have h1 := TagComponents_isSome Code b Actor.StaticMeshComponents
    (fun C hC => TagComponent_isSome Code b C (hS C hC))
  have h2 := TagComponents_isSome Code b Actor.SkeletalMeshComponents
    (fun C hC => TagComponent_isSome Code b C (hK C hC))
  cases hT1 : TagComponents Code b Actor.StaticMeshComponents with
  | none => simp [hT1] at h1
  | some S =>
    cases hT2 : TagComponents Code b Actor.SkeletalMeshComponents with
    | none => simp [hT2] at h2
    | some K => rfl

/-- C5 (frame of `TagActor`). For every actor, every flag and every returned
call `TagActor(Actor, b)`: a static-mesh or skeletal-mesh component of the
actor whose path classifies to `None` is the same after the call as before,
its stencil value and its render-custom-depth flag included. -/
theorem TagActor_frame (Code : ECityObjectLabel → Fin 256) (Actor Tagged : AActor) (b : Bool)
    (hRun : TagActor Code Actor b = some Tagged) (i : Nat) (C : UPrimitiveComponent)
    (hNone : GetLabelByPath C.PathName = some ECityObjectLabel.None) :
    (Actor.StaticMeshComponents[i]? = some C → Tagged.StaticMeshComponents[i]? = some C)
      ∧ (Actor.SkeletalMeshComponents[i]? = some C
          → Tagged.SkeletalMeshComponents[i]? = some C) := by
  obtain ⟨hS, hK⟩ := TagActor_parts Code Actor Tagged b hRun
  have hT := TagComponent_of_None Code b C hNone
  constructor
  · intro hC
    obtain ⟨C2, h1, h2⟩ := TagComponents_getElem Code b _ _ hS i C hC
    rw [hT] at h2
    rw [h1, ← h2]
  · intro hC
    obtain ⟨C2, h1, h2⟩ := TagComponents_getElem Code b _ _ hK i C hC
    rw [hT] at h2
    rw [h1, ← h2]

/-- Witness of C5: an actor with a road mesh and a mesh outside every rule,
tagged with the flag set; the second component keeps stencil 7 and its flag. -/
theorem TagActor_frame_witness :
    TagActor (fun _ => 3)
        { StaticMeshComponents :=
            [{ PathName := "/Game/Static/Env/Road/unknown.asset",
               CustomDepthStencilValue := 0, bRenderCustomDepth := false },
             { PathName := "/Game/Static/Env/Unknown/unknown.asset",
               CustomDepthStencilValue := 7, bRenderCustomDepth := false }],
          SkeletalMeshComponents := [] } true
      = some
        { StaticMeshComponents :=
            [{ PathName := "/Game/Static/Env/Road/unknown.asset",
               CustomDepthStencilValue := 3, bRenderCustomDepth := true },
             { PathName := "/Game/Static/Env/Unknown/unknown.asset",
               CustomDepthStencilValue := 7, bRenderCustomDepth := false }],
          SkeletalMeshComponents := [] }
      ∧ ([{ PathName := "/Game/Static/Env/Road/unknown.asset",
            CustomDepthStencilValue := 3, bRenderCustomDepth := true },
          { PathName := "/Game/Static/Env/Unknown/unknown.asset",
            CustomDepthStencilValue := 7, bRenderCustomDepth := false }]
          : List UPrimitiveComponent)[1]?
        = some { PathName := "/Game/Static/Env/Unknown/unknown.asset",
                 CustomDepthStencilValue := 7, bRenderCustomDepth := false } :=
  ⟨by decide,
   (TagActor_frame (fun _ => 3)
      { StaticMeshComponents :=
          [{ PathName := "/Game/Static/Env/Road/unknown.asset",
             CustomDepthStencilValue := 0, bRenderCustomDepth := false },
           { PathName := "/Game/Static/Env/Unknown/unknown.asset",
             CustomDepthStencilValue := 7, bRenderCustomDepth := false }],
        SkeletalMeshComponents := [] }
      { StaticMeshComponents :=
          [{ PathName := "/Game/Static/Env/Road/unknown.asset",
             CustomDepthStencilValue := 3, bRenderCustomDepth := true },
           { PathName := "/Game/Static/Env/Unknown/unknown.asset",
             CustomDepthStencilValue := 7, bRenderCustomDepth := false }],
        SkeletalMeshComponents := [] }
      true (by decide) 1
      { PathName := "/Game/Static/Env/Unknown/unknown.asset",
        CustomDepthStencilValue := 7, bRenderCustomDepth := false }
      (by decide)).1 (by decide)⟩

/-- C6 (postcondition of `TagActor` on classified components). For every
actor, every flag `b` and every returned call `TagActor(Actor, b)`: a
static-mesh or skeletal-mesh component whose path classifies to a label `L`
other than `None` has, after the call, stencil value `CastEnum(L)` and
render-custom-depth flag `b`. -/
theorem TagActor_classified (Code : ECityObjectLabel → Fin 256) (Actor Tagged : AActor)
    (b : Bool) (hRun : TagActor Code Actor b = some Tagged) (i : Nat)
    (C : UPrimitiveComponent) (L : ECityObjectLabel)
    (hL : GetLabelByPath C.PathName = some L) (hNe : L ≠ ECityObjectLabel.None) :
    (Actor.StaticMeshComponents[i]? = some C →
        ∃ C2, Tagged.StaticMeshComponents[i]? = some C2
          ∧ C2.CustomDepthStencilValue = CastEnum Code L ∧ C2.bRenderCustomDepth = b)
      ∧ (Actor.SkeletalMeshComponents[i]? = some C →
        ∃ C2, Tagged.SkeletalMeshComponents[i]? = some C2
          ∧ C2.CustomDepthStencilValue = CastEnum Code L ∧ C2.bRenderCustomDepth = b) := by
  obtain ⟨hS, hK⟩ := TagActor_parts Code Actor Tagged b hRun
  have hT := TagComponent_of_label Code b C L hL hNe
  have hF := SetStencilValue_fields Code C L b
  have hFlag : (SetStencilValue Code C L b).bRenderCustomDepth = b := by
    rw [hF.2.1]
    simp [hNe]
  constructor
  · intro hC
    obtain ⟨C2, h1, h2⟩ := TagComponents_getElem Code b _ _ hS i C hC
    rw [hT] at h2
    cases h2
    exact ⟨_, h1, hF.1, hFlag⟩
  · intro hC
    obtain ⟨C2, h1, h2⟩ := TagComponents_getElem Code b _ _ hK i C hC
    rw [hT] at h2
    cases h2
    exact ⟨_, h1, hF.1, hFlag⟩

/-- Witness of C6: an actor with one skeletal mesh whose physics asset is the
third special asset, tagged with the flag set, under codes that give
`Freicar3` the value 15. -/
theorem TagActor_classified_witness :
    ∃ C2, some C2 = (some
          { PathName :=
              "/Game/Freicar/big_with_cover_PhysicsAsset.big_with_cover_PhysicsAsset_3",
            CustomDepthStencilValue := 15, bRenderCustomDepth := true }
          : Option UPrimitiveComponent)
      ∧ C2.CustomDepthStencilValue
          = CastEnum (fun L => if L = ECityObjectLabel.Freicar3 then 15 else 0)
              ECityObjectLabel.Freicar3
      ∧ C2.bRenderCustomDepth = true := by
  obtain ⟨C2, h1, h2, h3⟩ :=
    (TagActor_classified (fun L => if L = ECityObjectLabel.Freicar3 then 15 else 0)
      { StaticMeshComponents := [],
        SkeletalMeshComponents :=
          [{ PathName :=
               "/Game/Freicar/big_with_cover_PhysicsAsset.big_with_cover_PhysicsAsset_3",
             CustomDepthStencilValue := 0, bRenderCustomDepth := false }] }
      { StaticMeshComponents := [],
        SkeletalMeshComponents :=
          [{ PathName :=
               "/Game/Freicar/big_with_cover_PhysicsAsset.big_with_cover_PhysicsAsset_3",
             CustomDepthStencilValue := 15, bRenderCustomDepth := true }] }
      true (by decide) 0
      { PathName := "/Game/Freicar/big_with_cover_PhysicsAsset.big_with_cover_PhysicsAsset_3",
        CustomDepthStencilValue := 0, bRenderCustomDepth := false }
      ECityObjectLabel.Freicar3 (by decide) (by decide)).2 (by decide)
  exact ⟨C2, h1.symm, h2, h3⟩

/-! ## Display names: the claims -/

/-- C7, the code at the failing inputs. The switch of `GetTagAsString` has no
case for `Freicar1` .. `Freicar10`: each of them reaches `default:` and gets
the text of `None`, not its own name. -/
theorem GetTagAsString_Freicar_default :
    GetTagAsString ECityObjectLabel.Freicar1 = "None"
      ∧ GetTagAsString ECityObjectLabel.Freicar2 = "None"
      ∧ GetTagAsString ECityObjectLabel.Freicar3 = "None"
      ∧ GetTagAsString ECityObjectLabel.Freicar4 = "None"
      ∧ GetTagAsString ECityObjectLabel.Freicar5 = "None"
      ∧ GetTagAsString ECityObjectLabel.Freicar6 = "None"
      ∧ GetTagAsString ECityObjectLabel.Freicar7 = "None"
      ∧ GetTagAsString ECityObjectLabel.Freicar8 = "None"
      ∧ GetTagAsString ECityObjectLabel.Freicar9 = "None"
      ∧ GetTagAsString ECityObjectLabel.Freicar10 = "None"
      ∧ GetTagAsString ECityObjectLabel.Freicar1 ≠ "Freicar1" := by
  decide

/-- The thirteen labels with a case in the switch get their own names. -/
theorem GetTagAsString_SwitchLabels :
    SwitchLabels.map GetTagAsString =
      ["None", "Buildings", "Fences", "Other", "Pedestrians", "Poles", "RoadLines", "Roads",
       "Sidewalks", "TrafficSigns", "Vegetation", "Vehicles", "Walls"] := by
  decide

/-- C8, the code at the failing inputs. Two different labels with one display
string: `Freicar1` and `None`, and likewise `Freicar1` and `Freicar2`. -/
theorem GetTagAsString_not_injective :
    ECityObjectLabel.Freicar1 ≠ ECityObjectLabel.None
      ∧ GetTagAsString ECityObjectLabel.Freicar1 = GetTagAsString ECityObjectLabel.None
      ∧ ECityObjectLabel.Freicar1 ≠ ECityObjectLabel.Freicar2
      ∧ GetTagAsString ECityObjectLabel.Freicar1
          = GetTagAsString ECityObjectLabel.Freicar2 := by
  decide

/-- Display strings are unique among the thirteen labels of the switch. -/
theorem GetTagAsString_injective_on_SwitchLabels (A B : ECityObjectLabel)
    (hA : A ∈ SwitchLabels) (hB : B ∈ SwitchLabels)
    (h : GetTagAsString A = GetTagAsString B) : A = B := by
  revert A B
  decide

/-- The uniqueness applied to `Roads` and `Roads`. -/
theorem GetTagAsString_injective_on_SwitchLabels_witness :
    ECityObjectLabel.Roads = ECityObjectLabel.Roads :=
  GetTagAsString_injective_on_SwitchLabels ECityObjectLabel.Roads ECityObjectLabel.Roads
    (by decide) (by decide) rfl

/-! ## The comparison of the ladders: the claims -/

/-- C9, the claim refuted at its own examples. Strings that differ from a rule
key only in letter case are matched by the ladders: `road` gets `Roads`,
`BUILDINGS` gets `Buildings`, and the first asset key with capitals gets
`Freicar1`; none of them gets `None`. -/
theorem ladder_match_ignores_case :
    "road" ≠ "Road"
      ∧ GetLabelByFolderName "road" = ECityObjectLabel.Roads
      ∧ GetLabelByFolderName "road" ≠ ECityObjectLabel.None
      ∧ GetLabelByFolderName "BUILDINGS" = ECityObjectLabel.Buildings
      ∧ GetLabelByFolderName "BUILDINGS" ≠ ECityObjectLabel.None
      ∧ GetLabelByAssetName "Big_With_Cover_PhysicsAsset.big_with_cover_PhysicsAsset"
          = ECityObjectLabel.Freicar1
      ∧ GetLabelByAssetName "Big_With_Cover_PhysicsAsset.big_with_cover_PhysicsAsset"
          ≠ ECityObjectLabel.None := by
  decide

/-- C9 as amended. Rule lookup is string equality that ignores the case of
ASCII letters: for every string `S` that agrees with a rule key `K` once
upper-case letters are lowered, `GetLabelByFolderName` (for a folder-name
key) and `GetLabelByAssetName` (for an asset-name key) match that key and
return its label. -/
theorem ladder_match_up_to_case (S K : String) (L : ECityObjectLabel)
    (hSame : SameIgnoringCase S K) :
    ((K, L) ∈ FolderNameRules → GetLabelByFolderName S = L)
      ∧ ((K, L) ∈ AssetNameRules → GetLabelByAssetName S = L) :=
  ⟨fun hMem => GetLabelByFolderName_of_rule S K L hMem hSame,
   fun hMem => GetLabelByAssetName_of_rule S K L hMem hSame⟩

/-- Witness of the amended C9: `road` agrees with the key `Road` up to letter
case and gets its label `Roads`. -/
theorem ladder_match_up_to_case_witness :
    SameIgnoringCase "road" "Road"
      ∧ GetLabelByFolderName "road" = ECityObjectLabel.Roads :=
  ⟨by decide,
   (ladder_match_up_to_case "road" "Road" ECityObjectLabel.Roads (by decide)).1 (by decide)⟩

/-! ## The tags of a tagged actor -/

/-- What `GetTagsOfTaggedActor` leaves in `Tags`: what was there, and the tags
other than `None` of the non-null components. -/
theorem mem_GetTagsOfTaggedActor (f : UPrimitiveComponent → ECityObjectLabel)
    (Cs : List (Option UPrimitiveComponent)) (Tags : Finset ECityObjectLabel)
    (L : ECityObjectLabel) :
    L ∈ GetTagsOfTaggedActor f Cs Tags ↔
      L ∈ Tags ∨ (L ≠ ECityObjectLabel.None ∧ ∃ C, some C ∈ Cs ∧ f C = L) := by
  induction Cs generalizing Tags with
  | nil => simp [GetTagsOfTaggedActor]
  | cons P Rest ih =>
    cases P with
    | none =>
      simp only [GetTagsOfTaggedActor, ih, List.mem_cons, false_or, reduceCtorEq]
    | some C0 =>
      unfold GetTagsOfTaggedActor
      by_cases hT : f C0 = ECityObjectLabel.None
      · simp only [hT, ne_eq, not_true_eq_false, if_false, ih, List.mem_cons,
          Option.some.injEq]
        constructor
        · rintro (h | ⟨hL, C, hC, hf⟩)
          · exact Or.inl h
          · exact Or.inr ⟨hL, C, Or.inr hC, hf⟩
        · rintro (h | ⟨hL, C, hC | hC, hf⟩)
          · exact Or.inl h
          · subst hC
            exact absurd (hf.symm.trans hT) hL
          · exact Or.inr ⟨hL, C, hC, hf⟩
      · simp only [ne_eq, hT, not_false_eq_true, if_true, ih, Finset.mem_insert,
          List.mem_cons, Option.some.injEq]
        constructor
        · rintro ((h | h) | ⟨hL, C, hC, hf⟩)
          · subst h
            exact Or.inr ⟨hT, C0, Or.inl rfl, rfl⟩
          · exact Or.inl h
          · exact Or.inr ⟨hL, C, Or.inr hC, hf⟩
        · rintro (h | ⟨hL, C, hC | hC, hf⟩)
          · exact Or.inl (Or.inr h)
          · subst hC
            exact Or.inl (Or.inl hf.symm)
          · exact Or.inr ⟨hL, C, hC, hf⟩

/-- C10. Called with an empty `Tags`, `GetTagsOfTaggedActor` leaves in it
exactly the tags other than `None` that `GetTagOfTaggedComponent` gives the
actor's non-null components: a label is in the result if and only if it is
not `None` and is the tag of such a component; so `None` is never in it, and
the result is the same for every ordering of the component array. -/
theorem GetTagsOfTaggedActor_empty (f : UPrimitiveComponent → ECityObjectLabel)
    (Cs : List (Option UPrimitiveComponent)) :
    (∀ L, L ∈ GetTagsOfTaggedActor f Cs ∅ ↔
        (L ≠ ECityObjectLabel.None ∧ ∃ C, some C ∈ Cs ∧ f C = L))
      ∧ ECityObjectLabel.None ∉ GetTagsOfTaggedActor f Cs ∅
      ∧ (∀ Cs2, Cs.Perm Cs2 →
          GetTagsOfTaggedActor f Cs2 ∅ = GetTagsOfTaggedActor f Cs ∅) := by
  refine ⟨fun L => ?_, ?_, fun Cs2 hP => ?_⟩
  · simp [mem_GetTagsOfTaggedActor]
  · simp [mem_GetTagsOfTaggedActor]
  · ext L
    simp only [mem_GetTagsOfTaggedActor, Finset.not_mem_empty, false_or, hP.mem_iff]

/-- C10 at a concrete actor: components tagged `Roads`, `None`, `Roads` and
`Vehicles` (by stencil values 7, 0, 7, 10) and a null pointer give the set of
`Roads` and `Vehicles`. -/
theorem GetTagsOfTaggedActor_empty_witness :
    GetTagsOfTaggedActor
        (fun C => if C.CustomDepthStencilValue = 7 then ECityObjectLabel.Roads
          else if C.CustomDepthStencilValue = 10 then ECityObjectLabel.Vehicles
          else ECityObjectLabel.None)
        [some { PathName := "a", CustomDepthStencilValue := 7, bRenderCustomDepth := true },
         some { PathName := "b", CustomDepthStencilValue := 0, bRenderCustomDepth := false },
         none,
         some { PathName := "c", CustomDepthStencilValue := 7, bRenderCustomDepth := true },
         some { PathName := "d", CustomDepthStencilValue := 10, bRenderCustomDepth := true }]
        ∅
      = {ECityObjectLabel.Roads, ECityObjectLabel.Vehicles} := by
  decide

/-- C15. The function `GetTagsOfTaggedActor` only adds to `Tags`: for every
component array and every initial set, every label of the initial set is in
the result, `None` is in the result only if it was in the initial set, and
the result is the union of the initial set with the actor's tags other than
`None`: the tags `GetTagOfTaggedComponent` gives the non-null components of
the array, `None` taken out. A label is in the result exactly when it was in
the initial set or is such a tag; so the result is also the union of the
initial set with what the call collects from an empty set. -/
theorem GetTagsOfTaggedActor_accumulates (f : UPrimitiveComponent → ECityObjectLabel)
    (Cs : List (Option UPrimitiveComponent)) (Tags : Finset ECityObjectLabel) :
    Tags ⊆ GetTagsOfTaggedActor f Cs Tags
      ∧ (ECityObjectLabel.None ∈ GetTagsOfTaggedActor f Cs Tags → ECityObjectLabel.None ∈ Tags)
      ∧ GetTagsOfTaggedActor f Cs Tags
          = Tags ∪ (((Cs.filterMap id).map f).toFinset.erase ECityObjectLabel.None)
      ∧ (∀ L, L ∈ GetTagsOfTaggedActor f Cs Tags ↔
          L ∈ Tags ∨ (L ≠ ECityObjectLabel.None ∧ ∃ C, some C ∈ Cs ∧ f C = L))
      ∧ GetTagsOfTaggedActor f Cs Tags = Tags ∪ GetTagsOfTaggedActor f Cs ∅ := by
  refine ⟨fun L hL => ?_, fun hN => ?_, ?_, fun L => mem_GetTagsOfTaggedActor f Cs Tags L, ?_⟩
  · exact (mem_GetTagsOfTaggedActor f Cs Tags L).2 (Or.inl hL)
  · rcases (mem_GetTagsOfTaggedActor f Cs Tags ECityObjectLabel.None).1 hN with h | ⟨h, _⟩
    · exact h
    · exact absurd rfl h
  · ext L
    simp only [Finset.mem_union, mem_GetTagsOfTaggedActor, Finset.mem_erase,
      List.mem_toFinset, List.mem_map, List.mem_filterMap, id_eq, exists_eq_right]
  · ext L
    simp only [Finset.mem_union, mem_GetTagsOfTaggedActor, Finset.not_mem_empty, false_or]

/-- C15 at a concrete call: an initial set holding `Walls` and `None`, and
components tagged `Roads` and `None` (by stencil values 7 and 0); the result
keeps `Walls` and `None` and gains `Roads`. -/
theorem GetTagsOfTaggedActor_accumulates_witness :
    GetTagsOfTaggedActor
        (fun C => if C.CustomDepthStencilValue = 7 then ECityObjectLabel.Roads
          else ECityObjectLabel.None)
        [some { PathName := "a", CustomDepthStencilValue := 7, bRenderCustomDepth := true },
         some { PathName := "b", CustomDepthStencilValue := 0, bRenderCustomDepth := false }]
        {ECityObjectLabel.Walls, ECityObjectLabel.None}
      = {ECityObjectLabel.Walls, ECityObjectLabel.None, ECityObjectLabel.Roads} := by
  decide

/-! ## The stencil write -/

/-- C17. For every component, label `L` and flag `b`, `SetStencilValue` writes
the stencil value `CastEnum(L)` and the render-custom-depth flag
`b && (L != None)`, and leaves the path alone; for `L` = `None` the flag
written is false for both values of `b`. -/
theorem SetStencilValue_writes (Code : ECityObjectLabel → Fin 256) (C : UPrimitiveComponent)
    (L : ECityObjectLabel) (b : Bool) :
    (SetStencilValue Code C L b).CustomDepthStencilValue = CastEnum Code L
      ∧ (SetStencilValue Code C L b).bRenderCustomDepth
          = (b && decide (L ≠ ECityObjectLabel.None))
      ∧ (SetStencilValue Code C L b).PathName = C.PathName
      ∧ (SetStencilValue Code C ECityObjectLabel.None true).bRenderCustomDepth = false
      ∧ (SetStencilValue Code C ECityObjectLabel.None false).bRenderCustomDepth = false := by
  obtain ⟨h1, h2, h3⟩ := SetStencilValue_fields Code C L b
  refine ⟨h1, h2, h3, ?_, ?_⟩
  · rw [(SetStencilValue_fields Code C ECityObjectLabel.None true).2.1]
    rfl
  · rw [(SetStencilValue_fields Code C ECityObjectLabel.None false).2.1]
    rfl

/-! ## The numeric code -/

/-- The cast keeps apart exactly what the enumerator values keep apart. -/
theorem CastEnum_eq_iff (Code : ECityObjectLabel → Fin 256) (A B : ECityObjectLabel) :
    CastEnum Code A = CastEnum Code B ↔ Code A = Code B := by
  unfold CastEnum
  constructor
  · intro h
    exact Fin.ext (by exact_mod_cast h)
  · intro h
    rw [h]

theorem EnumeratorValue_injective : Function.Injective EnumeratorValue := by
  intro A B
  revert A B
  decide

/-- C12. Under the enumerator values modelled from the spec, the code written
to the stencil is injective in the label: different labels have different
values of `CastEnum`. -/
theorem CastEnum_injective (A B : ECityObjectLabel) (hNe : A ≠ B) :
    CastEnum EnumeratorValue A ≠ CastEnum EnumeratorValue B := by
  intro h
  exact hNe (EnumeratorValue_injective ((CastEnum_eq_iff EnumeratorValue A B).1 h))

/-- Witness of C12: `Roads` and `Freicar3` have different codes. -/
theorem CastEnum_injective_witness :
    CastEnum EnumeratorValue ECityObjectLabel.Roads
      ≠ CastEnum EnumeratorValue ECityObjectLabel.Freicar3 :=
  CastEnum_injective ECityObjectLabel.Roads ECityObjectLabel.Freicar3 (by decide)

/-! ## Tagging twice -/

theorem SetStencilValue_idem (Code : ECityObjectLabel → Fin 256) (C : UPrimitiveComponent)
    (L : ECityObjectLabel) (b : Bool) :
    SetStencilValue Code (SetStencilValue Code C L b) L b = SetStencilValue Code C L b := by
  simp [SetStencilValue, SetRenderCustomDepth, SetCustomDepthStencilValue]

theorem TagComponent_idem (Code : ECityObjectLabel → Fin 256) (b : Bool)
    (C T : UPrimitiveComponent) (h : TagComponent Code b C = some T) :
    TagComponent Code b T = some T := by
  unfold TagComponent at h
  cases hL : GetLabelByPath C.PathName with
  | none => simp [hL] at h
  | some L =>
    rw [hL] at h
    by_cases hN : L = ECityObjectLabel.None
    · simp only [hN, ne_eq, not_true_eq_false, if_false, Option.some.injEq] at h
      subst h
      exact TagComponent_of_None Code b C (hN ▸ hL)
    · simp only [ne_eq, hN, not_false_eq_true, if_true, Option.some.injEq] at h
      subst h
      have hP : GetLabelByPath (SetStencilValue Code C L b).PathName = some L := by
        rw [(SetStencilValue_fields Code C L b).2.2]
        exact hL
      rw [TagComponent_of_label Code b _ L hP hN, SetStencilValue_idem]

theorem TagComponents_idem (Code : ECityObjectLabel → Fin 256) (b : Bool)
    (Cs Ts : List UPrimitiveComponent) (h : TagComponents Code b Cs = some Ts) :
    TagComponents Code b Ts = some Ts := by
  induction Cs generalizing Ts with
  | nil =>
    simp only [TagComponents, Option.some.injEq] at h
    subst h
    rfl
  | cons C0 Rest ih =>
    unfold TagComponents at h
    cases h0 : TagComponent Code b C0 with
    | none => simp [h0] at h
    | some T0 =>
      cases hR : TagComponents Code b Rest with
      | none => simp [h0, hR] at h
      | some TR =>
        simp only [h0, hR, Option.some.injEq] at h
        subst h
        simp only [TagComponents, TagComponent_idem Code b C0 T0 h0, ih TR hR]

theorem TagActor_idem (Code : ECityObjectLabel → Fin 256) (Actor Tagged : AActor) (b : Bool)
    (h : TagActor Code Actor b = some Tagged) : TagActor Code Tagged b = some Tagged := by
  obtain ⟨hS, hK⟩ := TagActor_parts Code Actor Tagged b h
  unfold TagActor
  rw [TagComponents_idem Code b _ _ hS, TagComponents_idem Code b _ _ hK]

/-- C14 (`TagActor` is idempotent). For every actor, whatever its components
hold, and every flag `b`: the call `TagActor(actor, b)` followed by the same
call leaves what the single call leaves, the stencil values and the
render-custom-depth flags of all components included. -/
theorem TagActor_twice (Code : ECityObjectLabel → Fin 256) (Actor : AActor) (b : Bool) :
    (TagActor Code Actor b).bind (fun Tagged => TagActor Code Tagged b)
      = TagActor Code Actor b := by
  cases h : TagActor Code Actor b with
  | none => rfl
  | some Tagged => exact TagActor_idem Code Actor Tagged b h

/-- C14 at a concrete actor: a road mesh with stencil 9 and the flag clear is
tagged to stencil 7 and the flag set, by one call and by two. -/
theorem TagActor_twice_witness :
    TagActor (fun _ => 7)
        { StaticMeshComponents :=
            [{ PathName := "/Game/Static/Env/Road/unknown.asset",
               CustomDepthStencilValue := 9, bRenderCustomDepth := false }],
          SkeletalMeshComponents := [] } true
      = some
        { StaticMeshComponents :=
            [{ PathName := "/Game/Static/Env/Road/unknown.asset",
               CustomDepthStencilValue := 7, bRenderCustomDepth := true }],
          SkeletalMeshComponents := [] }
      ∧ (TagActor (fun _ => 7)
          { StaticMeshComponents :=
              [{ PathName := "/Game/Static/Env/Road/unknown.asset",
                 CustomDepthStencilValue := 9, bRenderCustomDepth := false }],
            SkeletalMeshComponents := [] } true).bind
          (fun Tagged => TagActor (fun _ => 7) Tagged true)
        = some
          { StaticMeshComponents :=
              [{ PathName := "/Game/Static/Env/Road/unknown.asset",
                 CustomDepthStencilValue := 7, bRenderCustomDepth := true }],
            SkeletalMeshComponents := [] } := by
  decide

/-! ## The ladders as tables: independence of the row order -/

theorem Stricmp_cons_cons (C C1 : Char) (S K : List Char) (hC1 : LowerAscii C1 ≠ 0)
    (h : Stricmp (C :: S) (C1 :: K) = 0) :
    LowerAscii C = LowerAscii C1 ∧ Stricmp S K = 0 := by
  unfold Stricmp at h
  by_cases hc : C = C1
  · rw [if_pos hc] at h
    subst hc
    have hn : ¬ C.toNat = 0 := fun hz => hC1 ((LowerAscii_eq_zero_iff C).2 hz)
    rw [if_neg hn] at h
    exact ⟨rfl, h⟩
  · rw [if_neg hc] at h
    by_cases hb : BothAscii C C1 = true
    · rw [if_pos hb] at h
      by_cases hd : (LowerAscii C : Int) - (LowerAscii C1 : Int) ≠ 0
      · rw [if_pos hd] at h
        exact absurd h hd
      · rw [if_neg hd] at h
        exact ⟨by omega, h⟩
    · rw [if_neg hb] at h
      exact absurd (Char_eq_of_toNat_eq (by omega)) hc

/-- Two keys without the terminator inside that one string `==`-matches agree
up to ASCII letter case. -/
theorem Stricmp_unique (S K1 K2 : List Char)
    (hK1 : 0 ∉ K1.map LowerAscii) (hK2 : 0 ∉ K2.map LowerAscii)
    (h1 : Stricmp S K1 = 0) (h2 : Stricmp S K2 = 0) :
    K1.map LowerAscii = K2.map LowerAscii := by
  induction S generalizing K1 K2 with
  | nil =>
    cases K1 with
    | nil =>
      cases K2 with
      | nil => rfl
      | cons C2 T2 =>
        simp only [Stricmp] at h2
        simp only [List.map_cons, List.mem_cons, not_or] at hK2
        omega
    | cons C1 T1 =>
      simp only [Stricmp] at h1
      simp only [List.map_cons, List.mem_cons, not_or] at hK1
      omega
  | cons C S ih =>
    cases K1 with
    | nil =>
      cases K2 with
      | nil => rfl
      | cons C2 T2 =>
        simp only [List.map_cons, List.mem_cons, not_or] at hK2
        have hz : LowerAscii C = 0 := by
          simp only [Stricmp] at h1
          omega
        have := (Stricmp_cons_cons C C2 S T2 (fun hc => hK2.1 hc.symm) h2).1
        omega
    | cons C1 T1 =>
      simp only [List.map_cons, List.mem_cons, not_or] at hK1
      obtain ⟨hL1, hT1⟩ := Stricmp_cons_cons C C1 S T1 (fun hc => hK1.1 hc.symm) h1
      cases K2 with
      | nil =>
        have hz : LowerAscii C = 0 := by
          simp only [Stricmp] at h2
          omega
        omega
      | cons C2 T2 =>
        simp only [List.map_cons, List.mem_cons, not_or] at hK2
        obtain ⟨hL2, hT2⟩ := Stricmp_cons_cons C C2 S T2 (fun hc => hK2.1 hc.symm) h2
        simp only [List.map_cons, ← hL1, ← hL2, ih T1 T2 hK1.2 hK2.2 hT1 hT2]

theorem FStringEq_unique {S K1 K2 : String}
    (hK1 : 0 ∉ K1.data.map LowerAscii) (hK2 : 0 ∉ K2.data.map LowerAscii)
    (h1 : FStringEq S K1 = true) (h2 : FStringEq S K2 = true) : SameIgnoringCase K1 K2 := by
  unfold FStringEq at h1 h2
  exact Stricmp_unique S.data K1.data K2.data hK1 hK2 (by simpa using h1) (by simpa using h2)

/-- The first-match lookup returns the label of any row whose key the string
`==`-matches, when no two keys of the table agree up to letter case. -/
theorem LookupRule_of_match (Rules : List (String × ECityObjectLabel))
    (hNul : ∀ R ∈ Rules, 0 ∉ R.1.data.map LowerAscii)
    (hPair : Rules.Pairwise (fun R R2 => ¬ SameIgnoringCase R.1 R2.1))
    (S K : String) (L : ECityObjectLabel) (hMem : (K, L) ∈ Rules)
    (hMatch : FStringEq S K = true) : LookupRule Rules S = L := by
  induction Rules with
  | nil => simp at hMem
  | cons R Rest ih =>
    obtain ⟨K0, L0⟩ := R
    unfold LookupRule
    rw [List.pairwise_cons] at hPair
    rcases List.mem_cons.1 hMem with hEq | hIn
    · cases hEq
      rw [if_pos hMatch]
    · have hf : FStringEq S K0 = false := by
        by_cases hc : FStringEq S K0 = true
        · exact absurd
            (FStringEq_unique (hNul (K0, L0) (List.mem_cons_self _ _))
              (hNul (K, L) (List.mem_cons_of_mem _ hIn)) hc hMatch)
            (hPair.1 (K, L) hIn)
        · simpa using hc
      simp only [hf, Bool.false_eq_true, if_false]
      exact ih (fun R hR => hNul R (List.mem_cons_of_mem _ hR)) hPair.2 hIn

theorem SameIgnoringCase_symm_pairwise {Rules Rules2 : List (String × ECityObjectLabel)}
    (hPerm : Rules2.Perm Rules)
    (hPair : Rules.Pairwise (fun R R2 => ¬ SameIgnoringCase R.1 R2.1)) :
    Rules2.Pairwise (fun R R2 => ¬ SameIgnoringCase R.1 R2.1) := by
  refine (hPerm.pairwise_iff ?_).2 hPair
  intro A B hAB hBA
  apply hAB
  unfold SameIgnoringCase at hBA ⊢
  exact hBA.symm

/-- The first-match lookup does not depend on the order of the rows, when no
two keys of the table agree up to letter case. -/
theorem LookupRule_perm (Rules Rules2 : List (String × ECityObjectLabel))
    (hNul : ∀ R ∈ Rules, 0 ∉ R.1.data.map LowerAscii)
    (hPair : Rules.Pairwise (fun R R2 => ¬ SameIgnoringCase R.1 R2.1))
    (hPerm : Rules2.Perm Rules) (S : String) :
    LookupRule Rules2 S = LookupRule Rules S := by
  have hNul2 : ∀ R ∈ Rules2, 0 ∉ R.1.data.map LowerAscii :=
    fun R hR => hNul R (hPerm.mem_iff.1 hR)
  have hPair2 := SameIgnoringCase_symm_pairwise hPerm hPair
  by_cases hEx : ∃ R ∈ Rules, FStringEq S R.1 = true
  · obtain ⟨⟨K, L⟩, hMem, hMatch⟩ := hEx
    rw [LookupRule_of_match Rules hNul hPair S K L hMem hMatch,
      LookupRule_of_match Rules2 hNul2 hPair2 S K L (hPerm.mem_iff.2 hMem) hMatch]
  · have hNo : ∀ R ∈ Rules, FStringEq S R.1 = false := by
      intro R hR
      by_cases hc : FStringEq S R.1 = true
      · exact absurd ⟨R, hR, hc⟩ hEx
      · simpa using hc
    rw [LookupRule_of_no_match Rules S hNo,
      LookupRule_of_no_match Rules2 S (fun R hR => hNo R (hPerm.mem_iff.1 hR))]

/-- The exact lookup returns the label of a row of the table, when the keys of
the table are pairwise distinct. -/
theorem TableLookup_of_mem (Rules : List (String × ECityObjectLabel))
    (hKeys : (Rules.map Prod.fst).Nodup) (K : String) (L : ECityObjectLabel)
    (hMem : (K, L) ∈ Rules) : TableLookup Rules K = L := by
  induction Rules with
  | nil => simp at hMem
  | cons R Rest ih =>
    obtain ⟨K0, L0⟩ := R
    simp only [List.map_cons, List.nodup_cons] at hKeys
    rcases List.mem_cons.1 hMem with hEq | hIn
    · cases hEq
      simp [TableLookup, List.find?]
    · have hne : K0 ≠ K := by
        intro hc
        subst hc
        exact hKeys.1 (List.mem_map_of_mem Prod.fst hIn)
      have := ih hKeys.2 hIn
      simp only [TableLookup, List.find?, hne, decide_False] at this ⊢
      exact this

theorem FolderNameRules_keys_nodup : (FolderNameRules.map Prod.fst).Nodup := by
  decide

theorem AssetNameRules_keys_nodup : (AssetNameRules.map Prod.fst).Nodup := by
  decide

/-- C13, the claim refuted at a concrete string. The string `road` is not a
key of the folder-name table, so the table lookup of the claim gives `None`
for it; the ladder gives `Roads`. -/
theorem ladder_ne_exact_table_lookup :
    "road" ∉ FolderNameRules.map Prod.fst
      ∧ TableLookup FolderNameRules "road" = ECityObjectLabel.None
      ∧ GetLabelByFolderName "road" = ECityObjectLabel.Roads
      ∧ GetLabelByFolderName "road" ≠ TableLookup FolderNameRules "road" := by
  decide

/-- C13 as amended. The 12 folder-name keys are pairwise distinct and the 10
asset-name keys are pairwise distinct, and each ladder is a first-match table
lookup that does not depend on the order of the rows: for every string `S`
and every permutation `Rules` of a ladder's table, the ladder returns the
label paired with any key that `S` `==`-matches (a comparison that ignores
the case of ASCII letters), which is the label paired with `S` when `S` is a
key, and returns `None` when `S` matches no key. -/
theorem ladder_eq_first_match_lookup (Rules : List (String × ECityObjectLabel)) (S : String) :
    (FolderNameRules.map Prod.fst).Nodup
      ∧ (AssetNameRules.map Prod.fst).Nodup
      ∧ (Rules.Perm FolderNameRules →
          GetLabelByFolderName S = LookupRule Rules S
            ∧ (∀ K L, (K, L) ∈ Rules → FStringEq S K = true → GetLabelByFolderName S = L)
            ∧ (S ∈ Rules.map Prod.fst → GetLabelByFolderName S = TableLookup Rules S)
            ∧ ((∀ R ∈ Rules, FStringEq S R.1 = false) →
                GetLabelByFolderName S = ECityObjectLabel.None))
      ∧ (Rules.Perm AssetNameRules →
          GetLabelByAssetName S = LookupRule Rules S
            ∧ (∀ K L, (K, L) ∈ Rules → FStringEq S K = true → GetLabelByAssetName S = L)
            ∧ (S ∈ Rules.map Prod.fst → GetLabelByAssetName S = TableLookup Rules S)
            ∧ ((∀ R ∈ Rules, FStringEq S R.1 = false) →
                GetLabelByAssetName S = ECityObjectLabel.None)) := by
  refine ⟨FolderNameRules_keys_nodup, AssetNameRules_keys_nodup, fun hPerm => ?_,
    fun hPerm => ?_⟩
  · have hNul : ∀ R ∈ Rules, 0 ∉ R.1.data.map LowerAscii :=
      fun R hR => FolderNameRules_nul_free R (hPerm.mem_iff.1 hR)
    have hPair := SameIgnoringCase_symm_pairwise hPerm FolderNameRules_pairwise
    have hEq : GetLabelByFolderName S = LookupRule Rules S := by
      rw [GetLabelByFolderName_eq_LookupRule]
      exact (LookupRule_perm FolderNameRules Rules FolderNameRules_nul_free
        FolderNameRules_pairwise hPerm S).symm
    refine ⟨hEq, fun K L hMem hMatch => ?_, fun hKey => ?_, fun hNo => ?_⟩
    · rw [hEq]
      exact LookupRule_of_match Rules hNul hPair S K L hMem hMatch
    · obtain ⟨⟨K, L⟩, hMem, hK⟩ := List.mem_map.1 hKey
      simp only at hK
      subst hK
      have hKeys : (Rules.map Prod.fst).Nodup :=
        (List.Perm.nodup_iff (hPerm.map Prod.fst)).2 FolderNameRules_keys_nodup
      rw [TableLookup_of_mem Rules hKeys K L hMem]
      exact GetLabelByFolderName_of_rule K K L (hPerm.mem_iff.1 hMem) rfl
    · rw [hEq]
      exact LookupRule_of_no_match Rules S hNo
  · have hNul : ∀ R ∈ Rules, 0 ∉ R.1.data.map LowerAscii :=
      fun R hR => AssetNameRules_nul_free R (hPerm.mem_iff.1 hR)
    have hPair := SameIgnoringCase_symm_pairwise hPerm AssetNameRules_pairwise
    have hEq : GetLabelByAssetName S = LookupRule Rules S := by
      rw [GetLabelByAssetName_eq_LookupRule]
      exact (LookupRule_perm AssetNameRules Rules AssetNameRules_nul_free
        AssetNameRules_pairwise hPerm S).symm
    refine ⟨hEq, fun K L hMem hMatch => ?_, fun hKey => ?_, fun hNo => ?_⟩
    · rw [hEq]
      exact LookupRule_of_match Rules hNul hPair S K L hMem hMatch
    · obtain ⟨⟨K, L⟩, hMem, hK⟩ := List.mem_map.1 hKey
      simp only at hK
      subst hK
      have hKeys : (Rules.map Prod.fst).Nodup :=
        (List.Perm.nodup_iff (hPerm.map Prod.fst)).2 AssetNameRules_keys_nodup
      rw [TableLookup_of_mem Rules hKeys K L hMem]
      exact GetLabelByAssetName_of_rule K K L (hPerm.mem_iff.1 hMem) rfl
    · rw [hEq]
      exact LookupRule_of_no_match Rules S hNo

/-- The amended C13 at the folder-name table with its rows reversed: the
string `road` matches the key `Road` and gets `Roads`, and the key `Road`
gets the label the exact lookup pairs with it. -/
theorem ladder_eq_first_match_lookup_witness :
    GetLabelByFolderName "road" = LookupRule FolderNameRules.reverse "road"
      ∧ GetLabelByFolderName "road" = ECityObjectLabel.Roads
      ∧ GetLabelByFolderName "Road" = TableLookup FolderNameRules.reverse "Road" :=
  ⟨((ladder_eq_first_match_lookup FolderNameRules.reverse "road").2.2.1
      (List.reverse_perm FolderNameRules)).1,
   ((ladder_eq_first_match_lookup FolderNameRules.reverse "road").2.2.1
      (List.reverse_perm FolderNameRules)).2.1 "Road" ECityObjectLabel.Roads
      (by decide) (by decide),
   ((ladder_eq_first_match_lookup FolderNameRules.reverse "Road").2.2.1
      (List.reverse_perm FolderNameRules)).2.2.1 (by decide)⟩

/-! ## The editor hook: the claim -/

/-- C16 (`PostEditChangeProperty` is a one-shot trigger). For every event,
every prior state of the tagger and every world pointer: when the event has
no property, the trigger is clear or the world is null, the call returns with
the trigger cleared, no call of `TagActorsInLevel` and the world as it was;
otherwise it makes exactly one call of `TagActorsInLevel`, with the tagger's
`bTagForSemanticSegmentation`, and returns what that call leaves with the
trigger cleared. So a returned call has the trigger clear, and has run
`TagActorsInLevel` if and only if the event carries a property, the trigger
was set and the world is not null. -/
theorem PostEditChangeProperty_one_shot (Code : ECityObjectLabel → Fin 256) (Tagger : ATagger)
    (Event : FPropertyChangedEvent) (World : Option (List AActor)) :
    (¬ (Event.Property ≠ none ∧ Tagger.bTriggerTagObjects = true ∧ World ≠ none) →
        PostEditChangeProperty Code Tagger Event World
          = some { Tagger := { Tagger with bTriggerTagObjects := false },
                   World := World, TagActorsInLevelCalls := [] })
      ∧ (∀ Actors, Event.Property ≠ none → Tagger.bTriggerTagObjects = true →
          World = some Actors →
          PostEditChangeProperty Code Tagger Event World
            = (TagActorsInLevel Code Actors Tagger.bTagForSemanticSegmentation).map
                (fun Tagged =>
                  { Tagger := { Tagger with bTriggerTagObjects := false },
                    World := some Tagged,
                    TagActorsInLevelCalls := [Tagger.bTagForSemanticSegmentation] }))
      ∧ (∀ Out, PostEditChangeProperty Code Tagger Event World = some Out →
          Out.Tagger.bTriggerTagObjects = false
            ∧ Out.Tagger.bTagForSemanticSegmentation = Tagger.bTagForSemanticSegmentation
            ∧ (Out.TagActorsInLevelCalls = [Tagger.bTagForSemanticSegmentation] ↔
                (Event.Property ≠ none ∧ Tagger.bTriggerTagObjects = true ∧ World ≠ none))
            ∧ (Out.TagActorsInLevelCalls = [] ↔
                ¬ (Event.Property ≠ none ∧ Tagger.bTriggerTagObjects = true ∧ World ≠ none))
            ∧ (Out.TagActorsInLevelCalls = [] → Out.World = World)) := by
  obtain ⟨Trigger, Flag⟩ := Tagger
  obtain ⟨Property⟩ := Event
  cases Property <;> cases Trigger <;> cases World <;>
    simp [PostEditChangeProperty]
  all_goals
    rename_i Name Actors
    cases hT : TagActorsInLevel Code Actors Flag <;> simp

/-- C16 at two concrete calls on a world of one actor with a road mesh: with
the trigger set the actor is tagged by one call of `TagActorsInLevel`; with a
null property nothing but the trigger changes. -/
theorem PostEditChangeProperty_one_shot_witness :
    PostEditChangeProperty (fun _ => 7)
        { bTriggerTagObjects := true, bTagForSemanticSegmentation := true }
        { Property := some "bTriggerTagObjects" }
        (some
          [{ StaticMeshComponents :=
               [{ PathName := "/Game/Static/Env/Road/unknown.asset",
                  CustomDepthStencilValue := 0, bRenderCustomDepth := false }],
             SkeletalMeshComponents := [] }])
      = some
        { Tagger := { bTriggerTagObjects := false, bTagForSemanticSegmentation := true },
          World :=
            some
              [{ StaticMeshComponents :=
                   [{ PathName := "/Game/Static/Env/Road/unknown.asset",
                      CustomDepthStencilValue := 7, bRenderCustomDepth := true }],
                 SkeletalMeshComponents := [] }],
          TagActorsInLevelCalls := [true] }
      ∧ PostEditChangeProperty (fun _ => 7)
          { bTriggerTagObjects := true, bTagForSemanticSegmentation := true }
          { Property := none }
          (some
            [{ StaticMeshComponents :=
                 [{ PathName := "/Game/Static/Env/Road/unknown.asset",
                    CustomDepthStencilValue := 0, bRenderCustomDepth := false }],
               SkeletalMeshComponents := [] }])
        = some
          { Tagger := { bTriggerTagObjects := false, bTagForSemanticSegmentation := true },
            World :=
              some
                [{ StaticMeshComponents :=
                     [{ PathName := "/Game/Static/Env/Road/unknown.asset",
                        CustomDepthStencilValue := 0, bRenderCustomDepth := false }],
                   SkeletalMeshComponents := [] }],
            TagActorsInLevelCalls := [] } := by
  decide

/-! ## Tagging a level -/

/-- A returned `TagActorsInLevel` has run `TagActor` on every actor, in place. -/
theorem TagActorsInLevel_getElem (Code : ECityObjectLabel → Fin 256) (b : Bool)
    (World Tagged : List AActor) (h : TagActorsInLevel Code World b = some Tagged) (j : Nat) :
    Tagged[j]? = (World[j]?).bind (fun A => TagActor Code A b) := by
  induction World generalizing Tagged j with
  | nil =>
    simp only [TagActorsInLevel, Option.some.injEq] at h
    subst h
    simp
  | cons A Rest ih =>
    unfold TagActorsInLevel at h
    cases hA : TagActor Code A b with
    | none => simp [hA] at h
    | some T =>
      cases hR : TagActorsInLevel Code Rest b with
      | none => simp [hA, hR] at h
      | some TR =>
        simp only [hA, hR, Option.some.injEq] at h
        subst h
        cases j with
        | zero => simp [hA]
        | succ k => simpa using ih TR hR k

/-- The loop `TagActorsInLevel` fails exactly when `TagActor` fails on an actor. -/
theorem TagActorsInLevel_eq_none_iff (Code : ECityObjectLabel → Fin 256) (b : Bool)
    (World : List AActor) :
    TagActorsInLevel Code World b = none ↔ ∃ A ∈ World, TagActor Code A b = none := by
  induction World with
  | nil => simp [TagActorsInLevel]
  | cons A Rest ih =>
    unfold TagActorsInLevel
    cases hA : TagActor Code A b with
    | none => simp [hA]
    | some T =>
      cases hR : TagActorsInLevel Code Rest b with
      | none =>
        obtain ⟨A2, hM, hN⟩ := ih.1 hR
        simp only [true_iff]
        exact ⟨A2, List.mem_cons_of_mem _ hM, hN⟩
      | some TR =>
        simp only [reduceCtorEq, false_iff]
        rintro ⟨A2, hM, hN⟩
        rcases List.mem_cons.1 hM with hE | hM
        · subst hE
          rw [hA] at hN
          cases hN
        · have hc := ih.2 ⟨A2, hM, hN⟩
          rw [hR] at hc
          cases hc

theorem TagActorAt_eq_none_iff (Code : ECityObjectLabel → Fin 256) (b : Bool)
    (World : List AActor) (i : Nat) :
    TagActorAt Code b World i = none ↔
      (World[i]?).bind (fun A => TagActor Code A b) = none := by
  unfold TagActorAt
  cases hW : World[i]? with
  | none => simp
  | some A =>
    cases hA : TagActor Code A b with
    | none => simp [hA]
    | some T => simp [hA]

theorem TagActorAt_eq_some (Code : ECityObjectLabel → Fin 256) (b : Bool)
    (World Next : List AActor) (i : Nat) (h : TagActorAt Code b World i = some Next) :
    ∃ A T, World[i]? = some A ∧ TagActor Code A b = some T ∧ Next = World.set i T := by
  unfold TagActorAt at h
  cases hW : World[i]? with
  | none => simp [hW] at h
  | some A =>
    cases hA : TagActor Code A b with
    | none => simp [hW, hA] at h
    | some T =>
      simp only [hW, hA, Option.some.injEq] at h
      exact ⟨A, T, rfl, hA, h.symm⟩

/-- Returned calls of `TagActor` on the positions of a duplicate-free list
have run `TagActor` once on each listed actor and left the others alone. -/
theorem TagActorsInOrder_getElem (Code : ECityObjectLabel → Fin 256) (b : Bool)
    (Order : List Nat) (World Tagged : List AActor) (hNodup : Order.Nodup)
    (h : TagActorsInOrder Code b Order World = some Tagged) (j : Nat) :
    Tagged[j]? =
      if j ∈ Order then (World[j]?).bind (fun A => TagActor Code A b) else World[j]? := by
  induction Order generalizing World with
  | nil =>
    simp only [TagActorsInOrder, Option.some.injEq] at h
    subst h
    simp
  | cons i Rest ih =>
    unfold TagActorsInOrder at h
    rw [List.nodup_cons] at hNodup
    cases hAt : TagActorAt Code b World i with
    | none => simp [hAt] at h
    | some Next =>
      simp only [hAt] at h
      obtain ⟨A, T, hW, hA, hNext⟩ := TagActorAt_eq_some Code b World Next i hAt
      have hi : i < World.length := (List.getElem?_eq_some.1 hW).1
      rw [ih Next hNodup.2 h]
      subst hNext
      by_cases hji : j = i
      · subst hji
        simp [hNodup.1, hW, hA, List.getElem?_set_self hi]
      · have hij : i ≠ j := fun hc => hji hc.symm
        simp [hji, List.getElem?_set_ne hij]

/-- Calls of `TagActor` on the positions of a duplicate-free list fail
exactly when one of the positions holds no actor or an actor `TagActor`
fails on. -/
theorem TagActorsInOrder_eq_none_iff (Code : ECityObjectLabel → Fin 256) (b : Bool)
    (Order : List Nat) (World : List AActor) (hNodup : Order.Nodup) :
    TagActorsInOrder Code b Order World = none ↔
      ∃ i ∈ Order, (World[i]?).bind (fun A => TagActor Code A b) = none := by
  induction Order generalizing World with
  | nil => simp [TagActorsInOrder]
  | cons i Rest ih =>
    unfold TagActorsInOrder
    rw [List.nodup_cons] at hNodup
    cases hAt : TagActorAt Code b World i with
    | none =>
      simp only [true_iff]
      exact ⟨i, List.mem_cons_self _ _, (TagActorAt_eq_none_iff Code b World i).1 hAt⟩
    | some Next =>
      simp only []
      obtain ⟨A, T, hW, hA, hNext⟩ := TagActorAt_eq_some Code b World Next i hAt
      rw [ih Next hNodup.2]
      subst hNext
      constructor
      · rintro ⟨k, hk, hN⟩
        have hik : i ≠ k := fun hc => hNodup.1 (hc ▸ hk)
        rw [List.getElem?_set_ne hik] at hN
        exact ⟨k, List.mem_cons_of_mem _ hk, hN⟩
      · rintro ⟨k, hk, hN⟩
        rcases List.mem_cons.1 hk with hE | hk
        · subst hE
          rw [hW] at hN
          simp [hA] at hN
        · have hik : i ≠ k := fun hc => hNodup.1 (hc ▸ hk)
          exact ⟨k, hk, by rw [List.getElem?_set_ne hik]; exact hN⟩

/-- The calls `TagActor` on every actor of a world, once each in any order,
leave what `TagActorsInLevel` leaves. -/
theorem TagActorsInOrder_eq_TagActorsInLevel (Code : ECityObjectLabel → Fin 256) (b : Bool)
    (World : List AActor) (Order : List Nat)
    (hOrder : Order.Perm (List.range World.length)) :
    TagActorsInOrder Code b Order World = TagActorsInLevel Code World b := by
  have hNodup : Order.Nodup := (List.Perm.nodup_iff hOrder).2 (List.nodup_range _)
  have hMem : ∀ j, j ∈ Order ↔ j < World.length := fun j => by
    rw [hOrder.mem_iff, List.mem_range]
  cases hL : TagActorsInLevel Code World b with
  | none =>
    obtain ⟨A, hA, hN⟩ := (TagActorsInLevel_eq_none_iff Code b World).1 hL
    obtain ⟨n, hn⟩ := List.mem_iff_getElem?.1 hA
    have hlt : n < World.length := (List.getElem?_eq_some.1 hn).1
    exact (TagActorsInOrder_eq_none_iff Code b Order World hNodup).2
      ⟨n, (hMem n).2 hlt, by rw [hn]; exact hN⟩
  | some Tagged =>
    cases hO : TagActorsInOrder Code b Order World with
    | none =>
      exfalso
      obtain ⟨i, hi, hN⟩ := (TagActorsInOrder_eq_none_iff Code b Order World hNodup).1 hO
      have hlt : i < World.length := (hMem i).1 hi
      rw [List.getElem?_eq_getElem hlt] at hN
      have hc := (TagActorsInLevel_eq_none_iff Code b World).2
        ⟨World[i], List.getElem_mem hlt, hN⟩
      rw [hL] at hc
      cases hc
    | some Tagged2 =>
      congr 1
      apply List.ext_getElem?
      intro j
      rw [TagActorsInOrder_getElem Code b Order World Tagged2 hNodup hO j,
        TagActorsInLevel_getElem Code b World Tagged hL j]
      by_cases hj : j < World.length
      · rw [if_pos ((hMem j).2 hj)]
      · rw [if_neg (fun hc => hj ((hMem j).1 hc)),
          List.getElem?_eq_none (Nat.le_of_not_lt hj)]
        rfl

/-- C11. The function `TagActorsInLevel` is `TagActor` applied actor by actor,
whatever the order: for every world (its actors own pairwise disjoint
components, each its own) and every flag `b`, the calls `TagActor(a, b)` made
once on each actor, in the order of any permutation `Order` of the actors'
positions, leave the components as `TagActorsInLevel(world, b)` leaves them;
and a world with no actors is left unchanged. -/
theorem TagActorsInLevel_any_order (Code : ECityObjectLabel → Fin 256) (b : Bool)
    (World : List AActor) (Order : List Nat)
    (hOrder : Order.Perm (List.range World.length)) :
    TagActorsInLevel Code World b = TagActorsInOrder Code b Order World
      ∧ TagActorsInLevel Code [] b = some [] :=
  ⟨(TagActorsInOrder_eq_TagActorsInLevel Code b World Order hOrder).symm, rfl⟩

/-- Witness of C11: a world of a road actor and a vehicle actor, tagged by the
level loop and by the two calls in the reverse order, with the same result. -/
theorem TagActorsInLevel_any_order_witness :
    TagActorsInOrder (fun _ => 7) true [1, 0]
        [{ StaticMeshComponents :=
             [{ PathName := "/Game/Static/Env/Road/unknown.asset",
                CustomDepthStencilValue := 0, bRenderCustomDepth := false }],
           SkeletalMeshComponents := [] },
         { StaticMeshComponents := [],
           SkeletalMeshComponents :=
             [{ PathName := "/Game/Static/Env/Vehicles/unknown.asset",
                CustomDepthStencilValue := 0, bRenderCustomDepth := false }] }]
      = some
        [{ StaticMeshComponents :=
             [{ PathName := "/Game/Static/Env/Road/unknown.asset",
                CustomDepthStencilValue := 7, bRenderCustomDepth := true }],
           SkeletalMeshComponents := [] },
         { StaticMeshComponents := [],
           SkeletalMeshComponents :=
             [{ PathName := "/Game/Static/Env/Vehicles/unknown.asset",
                CustomDepthStencilValue := 7, bRenderCustomDepth := true }] }]
      ∧ TagActorsInLevel (fun _ => 7)
          [{ StaticMeshComponents :=
               [{ PathName := "/Game/Static/Env/Road/unknown.asset",
                  CustomDepthStencilValue := 0, bRenderCustomDepth := false }],
             SkeletalMeshComponents := [] },
           { StaticMeshComponents := [],
             SkeletalMeshComponents :=
               [{ PathName := "/Game/Static/Env/Vehicles/unknown.asset",
                  CustomDepthStencilValue := 0, bRenderCustomDepth := false }] }] true
        = TagActorsInOrder (fun _ => 7) true [1, 0]
          [{ StaticMeshComponents :=
               [{ PathName := "/Game/Static/Env/Road/unknown.asset",
                  CustomDepthStencilValue := 0, bRenderCustomDepth := false }],
             SkeletalMeshComponents := [] },
           { StaticMeshComponents := [],
             SkeletalMeshComponents :=
               [{ PathName := "/Game/Static/Env/Vehicles/unknown.asset",
                  CustomDepthStencilValue := 0, bRenderCustomDepth := false }] }] :=
  ⟨by decide,
   (TagActorsInLevel_any_order (fun _ => 7) true
      [{ StaticMeshComponents :=
           [{ PathName := "/Game/Static/Env/Road/unknown.asset",
              CustomDepthStencilValue := 0, bRenderCustomDepth := false }],
         SkeletalMeshComponents := [] },
       { StaticMeshComponents := [],
         SkeletalMeshComponents :=
           [{ PathName := "/Game/Static/Env/Vehicles/unknown.asset",
              CustomDepthStencilValue := 0, bRenderCustomDepth := false }] }]
      [1, 0] (by decide)).1⟩

end Tagger
